import Mathlib

/-!
Shallow embedding of the chord/scale/riff generation and serialization core of
the chord-seeker repository (TypeScript), together with proofs of the frozen
claims about it.

Conventions used throughout:
* TypeScript `number` values that are always integral are embedded as `Int`
  (or `Nat` where the source guarantees non-negativity); fractional beat
  arithmetic is embedded as `ℚ`.
* JavaScript array indexing `a[i]`, which yields `undefined` out of range, is
  embedded as `jsIndex : List α → Int → Option α` (`none` = `undefined`).
* JavaScript `%` (truncated remainder, sign of the dividend) is `Int.tmod`;
  all `%` occurrences on provably non-negative operands are embedded with
  naturals directly.
* `Math.random()` draws are made explicit as oracle parameters; see `RiffOracle`.
-/

set_option maxHeartbeats 1000000

/-- JavaScript array indexing: `l[i]` is `undefined` (`none`) when `i` is
negative or past the end. -/
def jsIndex {α : Type} (l : List α) (i : Int) : Option α :=
  if i < 0 then none else l.get? i.toNat

/-- JavaScript `Math.round`: round half toward positive infinity. -/
def jsRound (q : ℚ) : Int := ⌊q + 1/2⌋

/-- JavaScript `Math.floor` on a rational value. -/
def jsFloor (q : ℚ) : Int := ⌊q⌋

/-- The 12 canonical sharp-spelled pitch classes (source: `types/music.ts`
`NoteId`). -/
inductive NoteId
  | C | Cs | D | Ds | E | F | Fs | G | Gs | A | As | B
deriving DecidableEq, Repr

/-- Modelled from the spec: the `data/notes.ts` table `NOTE_TO_INDEX` is not
under `src/`; the spec fixes the total order "C=0 … B=11". -/
def NOTE_TO_INDEX : NoteId → Nat
  | .C => 0 | .Cs => 1 | .D => 2 | .Ds => 3 | .E => 4 | .F => 5
  | .Fs => 6 | .G => 7 | .Gs => 8 | .A => 9 | .As => 10 | .B => 11

/-- Modelled from the spec: the `data/notes.ts` array `INDEX_TO_NOTE`
(canonical sharp spellings, index 0 = C … 11 = B). -/
def INDEX_TO_NOTE : List NoteId :=
  [.C, .Cs, .D, .Ds, .E, .F, .Fs, .G, .Gs, .A, .As, .B]

/-- `INDEX_TO_NOTE[n]` at a natural index.  Every call site below passes an
index reduced mod 12, so the `getD` default is never reached. -/
def noteAtIndex (n : Nat) : NoteId := (INDEX_TO_NOTE.get? n).getD .C

/-- Display spelling of a note (used only to build cosmetic name strings). -/
def NoteId.str : NoteId → String
  | .C => "C" | .Cs => "C#" | .D => "D" | .Ds => "D#" | .E => "E" | .F => "F"
  | .Fs => "F#" | .G => "G" | .Gs => "G#" | .A => "A" | .As => "A#" | .B => "B"

/-- The closed union type `GuitarString = 6 | 5 | 4 | 3 | 2 | 1`
(source: `types/music.ts`).  String 6 is the low E string. -/
inductive GuitarString
  | s1 | s2 | s3 | s4 | s5 | s6
deriving DecidableEq, Repr

/-- The numeric value of a `GuitarString` (the TS union is a union of number
literals). -/
def GuitarString.toNat : GuitarString → Nat
  | .s1 => 1 | .s2 => 2 | .s3 => 3 | .s4 => 4 | .s5 => 5 | .s6 => 6

/-- Modelled from the spec: `data/notes.ts` `GUITAR_STRINGS` is not under
`src/`; the spec orders the tuning tuple from string index 6 (lowest) to
string index 1 (highest). -/
def GUITAR_STRINGS : List GuitarString := [.s6, .s5, .s4, .s3, .s2, .s1]

/-- One entry of the open-string tuning table: pitch-class index of the open
string and its absolute MIDI note number. -/
structure TuningEntry where
  index : Nat
  midi : Int
deriving DecidableEq, Repr

/-- Modelled from the spec: `data/notes.ts` `STRING_TUNINGS` is not under
`src/`; the spec fixes standard tuning E-A-D-G-B-E with a per-string MIDI
base (low E = E2 = MIDI 40 … high E = E4 = MIDI 64). -/
def STRING_TUNINGS : GuitarString → TuningEntry
  | .s6 => ⟨4, 40⟩
  | .s5 => ⟨9, 45⟩
  | .s4 => ⟨2, 50⟩
  | .s3 => ⟨7, 55⟩
  | .s2 => ⟨11, 59⟩
  | .s1 => ⟨4, 64⟩

/-- The closed interval-label enumeration (source: `types/music.ts`
`IntervalSymbol`); `n2` stands for the label `'2'`, `s4` for `'#4'`, etc. -/
inductive IntervalSymbol
  | R | b2 | n2 | b3 | n3 | n4 | s4 | b5 | n5 | s5 | b6 | n6 | b7 | n7 | n9
deriving DecidableEq, Repr

/-- Source: `utils/scaleUtils.ts` / `utils/triadUtils.ts`
`INTERVAL_TO_SEMITONES` (identical table in both files). -/
def INTERVAL_TO_SEMITONES : IntervalSymbol → Nat
  | .R => 0 | .b2 => 1 | .n2 => 2 | .b3 => 3 | .n3 => 4 | .n4 => 5
  | .s4 => 6 | .b5 => 6 | .n5 => 7 | .s5 => 8 | .b6 => 8 | .n6 => 9
  | .b7 => 10 | .n7 => 11 | .n9 => 14

/-- The closed chord-quality enumeration (source: `types/music.ts`
`ChordQuality`). -/
inductive ChordQuality
  | major | minor | flatThird | sus2 | sus4 | dominant7 | major7 | minor7
  | add9 | diminished | augmented
deriving DecidableEq, Repr

/-- The fields of a chord-quality definition that the core consumes
(display-only fields of the source record are omitted). -/
structure ChordQualityDefinition where
  intervals : List IntervalSymbol
  shortLabel : String
deriving DecidableEq, Repr

/-- Modelled from the spec: `data/chordQualities.ts` `QUALITY_MAP` is not
under `src/`.  Interval lists follow the chord-formula table the repository
itself states in semitones (`chordAnalyzer` `CHORD_FORMULAS`: major 0-4-7,
minor 0-3-7, sus2 0-2-7, sus4 0-5-7, dominant7 0-4-7-10, major7 0-4-7-11,
minor7 0-3-7-10, add9 0-4-7-14, diminished 0-3-6, augmented 0-4-8) spelled
with the canonical labels of `INTERVAL_TO_SEMITONES`; `flatThird` is the
minor-third variant.  Short labels are cosmetic. -/
def QUALITY_MAP : ChordQuality → ChordQualityDefinition
  | .major => ⟨[.R, .n3, .n5], ""⟩
  | .minor => ⟨[.R, .b3, .n5], "m"⟩
  | .flatThird => ⟨[.R, .b3, .n5], "(b3)"⟩
  | .sus2 => ⟨[.R, .n2, .n5], "sus2"⟩
  | .sus4 => ⟨[.R, .n4, .n5], "sus4"⟩
  | .dominant7 => ⟨[.R, .n3, .n5, .b7], "7"⟩
  | .major7 => ⟨[.R, .n3, .n5, .n7], "maj7"⟩
  | .minor7 => ⟨[.R, .b3, .n5, .b7], "m7"⟩
  | .add9 => ⟨[.R, .n3, .n5, .n9], "add9"⟩
  | .diminished => ⟨[.R, .b3, .b5], "dim"⟩
  | .augmented => ⟨[.R, .n3, .s5], "aug"⟩

/-- Source: `utils/scaleUtils.ts` / `utils/triadUtils.ts`
`calculateNoteFromInterval`.  The computed index `(rootIndex + semitones) % 12`
is always in `[0, 12)`, so the array access is total. -/
def calculateNoteFromInterval (root : NoteId) (interval : IntervalSymbol) : NoteId :=
  noteAtIndex ((NOTE_TO_INDEX root + INTERVAL_TO_SEMITONES interval) % 12)

/-- Source: `utils/scaleUtils.ts` `transposeNote`.
`(noteIndex + semitones + 12) % 12` uses the JavaScript remainder (sign of the
dividend, `Int.tmod`); a negative result makes `INDEX_TO_NOTE[...]`
`undefined`, modelled by `none`. -/
def transposeNote (note : NoteId) (semitones : Int) : Option NoteId :=
  jsIndex INDEX_TO_NOTE (((NOTE_TO_INDEX note : Int) + semitones + 12).tmod 12)

/-- A scale definition (source: `types/progression.ts` `ScaleDefinition`;
display-only fields omitted). -/
structure ScaleDefinition where
  sid : String
  intervals : List IntervalSymbol
  compatibleQualities : List ChordQuality
deriving DecidableEq, Repr

/-- Source: `data/scales.ts` `SCALES`, flattened to `Object.values` order
(the record's insertion order). -/
def SCALE_LIST : List ScaleDefinition :=
  [ ⟨"minorPentatonic", [.R, .b3, .n4, .n5, .b7], [.minor, .minor7]⟩
  , ⟨"majorPentatonic", [.R, .n2, .n3, .n5, .n6], [.major, .major7]⟩
  , ⟨"naturalMinor", [.R, .n2, .b3, .n4, .n5, .b6, .b7], [.minor, .minor7]⟩
  , ⟨"majorScale", [.R, .n2, .n3, .n4, .n5, .n6, .n7], [.major, .major7]⟩
  , ⟨"harmonicMinor", [.R, .n2, .b3, .n4, .n5, .b6, .n7], [.minor, .minor7]⟩
  , ⟨"melodicMinor", [.R, .n2, .b3, .n4, .n5, .n6, .n7], [.minor, .minor7]⟩
  , ⟨"dorian", [.R, .n2, .b3, .n4, .n5, .n6, .b7], [.minor, .minor7]⟩
  , ⟨"phrygian", [.R, .b2, .b3, .n4, .n5, .b6, .b7], [.minor, .minor7]⟩
  , ⟨"lydian", [.R, .n2, .n3, .s4, .n5, .n6, .n7], [.major, .major7]⟩
  , ⟨"mixolydian", [.R, .n2, .n3, .n4, .n5, .n6, .b7], [.major, .dominant7]⟩
  , ⟨"locrian", [.R, .b2, .b3, .n4, .b5, .b6, .b7], [.diminished]⟩
  , ⟨"bluesScale", [.R, .b3, .n4, .b5, .n5, .b7], [.minor, .minor7, .dominant7]⟩ ]

/-- Source: `utils/scaleUtils.ts` `isScaleCompatible`. -/
def isScaleCompatible (scale : ScaleDefinition) (quality : ChordQuality) : Bool :=
  scale.compatibleQualities.contains quality

/-- Source: `utils/scaleUtils.ts` `getBestScaleForChord`.  The `a || b || c`
fallback chains on possibly-`undefined` `find` results are `Option.orElse`
chains ending in `compatible[0]`. -/
def getBestScaleForChord (chordQuality : ChordQuality)
    (availableScales : List ScaleDefinition) : Option ScaleDefinition :=
  let compatible := availableScales.filter (fun scale => isScaleCompatible scale chordQuality)
  if compatible.isEmpty then
    none
  else if chordQuality = .minor ∨ chordQuality = .minor7 then
    ((compatible.find? (fun s => s.sid = "minorPentatonic")).orElse
      (fun _ => compatible.find? (fun s => s.sid = "dorian"))).orElse
      (fun _ => compatible.head?)
  else if chordQuality = .major ∨ chordQuality = .major7 then
    ((compatible.find? (fun s => s.sid = "majorPentatonic")).orElse
      (fun _ => compatible.find? (fun s => s.sid = "majorScale"))).orElse
      (fun _ => compatible.head?)
  else if chordQuality = .dominant7 then
    ((compatible.find? (fun s => s.sid = "mixolydian")).orElse
      (fun _ => compatible.find? (fun s => s.sid = "bluesScale"))).orElse
      (fun _ => compatible.head?)
  else
    compatible.head?

/-- Articulation techniques (source: `types/songBuilder.ts` `Technique`,
a file not under `src/`; the eight values are fixed by the technique tables of
`riffGenerator.ts` and `TabDisplay.tsx`, which are under `src/`). -/
inductive Technique
  | normal | hammerOn | pullOff | slideUp | slideDown | bend | harmonic | muted
deriving DecidableEq, Repr

/-- Riff styles (source: `types/songBuilder.ts` `RiffStyle`, not under `src/`;
the four values are fixed by the style switch of `riffGenerator.ts`). -/
inductive RiffStyle
  | melodic | arpeggiated | bassDriven | complex
deriving DecidableEq, Repr

/-- One scheduled riff event (spec data model; `types/songBuilder.ts` is not
under `src/`).  The TS field `note : NoteId` is embedded as `Option NoteId`
because the generator can store a JS `undefined` there (out-of-range random
index); `some` corresponds to every well-typed TS value. -/
structure RiffNote where
  nid : String
  string : GuitarString
  fret : Int
  duration : ℚ
  startBeat : ℚ
  note : Option NoteId
  interval : Option IntervalSymbol
  technique : Option Technique
  targetFret : Option Int
deriving DecidableEq, Repr

/-- One measure of a riff (spec data model). -/
structure ChordRiff where
  chordRoot : NoteId
  chordQuality : ChordQuality
  chordDegree : String
  notes : List RiffNote
  totalBeats : ℚ
deriving DecidableEq, Repr

/-- A full riff: ordered measures plus tempo and style (spec data model). -/
structure ProgressionRiff where
  rid : String
  chordRiffs : List ChordRiff
  bpm : ℚ
  style : RiffStyle
deriving DecidableEq, Repr

/-- One triad note: string, fret, interval label, pitch class
(source: `types/triad.ts` `TriadNote`, via `triadUtils.ts`). -/
structure TriadNote where
  string : GuitarString
  fret : Int
  interval : IntervalSymbol
  note : NoteId
deriving DecidableEq, Repr

/-- One candidate triad voicing (source: `types/triad.ts` `TriadPosition`). -/
structure TriadPosition where
  pid : String
  notes : List TriadNote
  minFret : Int
  maxFret : Int
  span : Int
  stringSet : GuitarString × GuitarString × GuitarString
deriving DecidableEq, Repr

/-- `[lo, lo+1, …, hi-1]` as naturals (used to embed `for` loops over index
ranges). -/
def idxRange (lo hi : Nat) : List Nat := (List.range (hi - lo)).map (fun k => k + lo)

/-- Source: `utils/triadUtils.ts` `generateStringCombinations`: all `i<j<k`
index triples over `GUITAR_STRINGS`, in loop order. -/
def generateStringCombinations : List (GuitarString × GuitarString × GuitarString) :=
  (idxRange 0 (GUITAR_STRINGS.length - 2)).flatMap (fun i =>
    (idxRange (i + 1) (GUITAR_STRINGS.length - 1)).flatMap (fun j =>
      (idxRange (j + 1) GUITAR_STRINGS.length).map (fun k =>
        (GUITAR_STRINGS.getD i .s6, GUITAR_STRINGS.getD j .s6, GUITAR_STRINGS.getD k .s6))))

/-- The `while (fret < 0) fret += 12` wrap-up loop of `findAllFretsForNote`,
with an explicit iteration bound (`fuel`) so that the recursion is structural
and kernel-computable; `wrapFret` supplies enough fuel for the loop to finish. -/
def wrapFretAux : Nat → Int → Int
  | 0, f => f
  | fuel + 1, f => if f < 0 then wrapFretAux fuel (f + 12) else f

/-- The exit value of the `while (fret < 0) fret += 12` loop.  Each iteration
shrinks `-f` by 12, so `(-f).toNat` bounds the iteration count. -/
def wrapFret (f : Int) : Int := wrapFretAux (-f).toNat f

/-- The `while (fret <= maxFret) { push; fret += 12 }` collection loop of
`findAllFretsForNote`, with an explicit iteration bound (`fuel`); each
iteration advances `fret` by 12, so `fretsUpTo` supplies enough fuel. -/
def fretsUpToAux : Nat → Int → Int → List Int
  | 0, _, _ => []
  | fuel + 1, fret, maxFret =>
    if fret ≤ maxFret then fret :: fretsUpToAux fuel (fret + 12) maxFret else []

/-- All frets collected by the `while (fret <= maxFret)` loop. -/
def fretsUpTo (fret maxFret : Int) : List Int :=
  fretsUpToAux (maxFret + 1 - fret).toNat fret maxFret

/-- Stable insertion into a sorted list: the new element goes after every
element `b` with `le b a` (the placement a stable sort gives it). -/
def stableInsert {α : Type} (le : α → α → Bool) (a : α) : List α → List α
  | [] => [a]
  | b :: l => if le b a then b :: stableInsert le a l else a :: b :: l

/-- JavaScript `Array.prototype.sort` with a consistent comparator: the
stable sort by the total preorder `le` (modern engines' sort is stable, and
for a total preorder the stable sorted rearrangement is unique). -/
def stableSort {α : Type} (le : α → α → Bool) (l : List α) : List α :=
  l.foldl (fun sorted a => stableInsert le a sorted) []

/-- Source: `utils/triadUtils.ts` `findAllFretsForNote`. -/
def findAllFretsForNote (stringId : GuitarString) (targetNote : NoteId)
    (maxFret : Int) : List Int :=
  fretsUpTo (wrapFret ((NOTE_TO_INDEX targetNote : Int) - (STRING_TUNINGS stringId).index)) maxFret

/-- Source: `utils/triadUtils.ts` `filterPlayablePositions`: drop positions
with any fret beyond 15 or span over 5. -/
def filterPlayablePositions (positions : List TriadPosition) : List TriadPosition :=
  positions.filter (fun pos =>
    ¬ (pos.notes.any (fun note => 15 < note.fret)) ∧ ¬ (5 < pos.span))

/-- The comparator of the final sort of `generateTriadPositions` as a total
preorder: ascending `minFret`, ties by descending numeric index of
`stringSet[0]` (`b.stringSet[0] - a.stringSet[0]`). -/
def triadPosLE (a b : TriadPosition) : Bool :=
  a.minFret < b.minFret ∨
    (a.minFret = b.minFret ∧ b.stringSet.1.toNat ≤ a.stringSet.1.toNat)

/-- All candidate positions of `generateTriadPositions` before filtering, in
`forEach`/push order, given the three target intervals and notes. -/
def allTriadPositions (triadIntervals : IntervalSymbol × IntervalSymbol × IntervalSymbol)
    (targetNotes : NoteId × NoteId × NoteId) : List TriadPosition :=
  generateStringCombinations.flatMap (fun stringSet =>
    let opts1 := (findAllFretsForNote stringSet.1 targetNotes.1 15).map (fun fret =>
      TriadNote.mk stringSet.1 fret triadIntervals.1 targetNotes.1)
    let opts2 := (findAllFretsForNote stringSet.2.1 targetNotes.2.1 15).map (fun fret =>
      TriadNote.mk stringSet.2.1 fret triadIntervals.2.1 targetNotes.2.1)
    let opts3 := (findAllFretsForNote stringSet.2.2 targetNotes.2.2 15).map (fun fret =>
      TriadNote.mk stringSet.2.2 fret triadIntervals.2.2 targetNotes.2.2)
    opts1.flatMap (fun note1 =>
      opts2.flatMap (fun note2 =>
        opts3.map (fun note3 =>
          let frets := [note1.fret, note2.fret, note3.fret]
          let minFret := min note1.fret (min note2.fret note3.fret)
          let maxFret := max note1.fret (max note2.fret note3.fret)
          { pid := String.intercalate "-"
                ([stringSet.1.toNat, stringSet.2.1.toNat, stringSet.2.2.toNat].map toString)
              ++ "-" ++ String.intercalate "-" (frets.map toString)
            notes := [note1, note2, note3]
            minFret := minFret
            maxFret := maxFret
            span := maxFret - minFret
            stringSet := stringSet }))))

/-- Source: `utils/triadUtils.ts` `generateTriadPositions`: take the first
three intervals of the quality (fewer than three gives an empty result),
enumerate all string subsets and fret combinations, filter for playability,
and sort with the `minFret`-then-`stringSet[0]` comparator. -/
def generateTriadPositions (root : NoteId) (quality : ChordQuality) : List TriadPosition :=
  match (QUALITY_MAP quality).intervals.take 3 with
  | [i1, i2, i3] =>
    let targetNotes := (calculateNoteFromInterval root i1,
      calculateNoteFromInterval root i2, calculateNoteFromInterval root i3)
    let playablePositions := filterPlayablePositions (allTriadPositions (i1, i2, i3) targetNotes)
    stableSort triadPosLE playablePositions
  | _ => []

/-- One tab grid cell with technique info (source: `types/songBuilder.ts`
`TabPosition`, not under `src/`; fields fixed by `tabUtils.ts`). -/
structure TabPosition where
  fret : Option Int
  technique : Option Technique
  targetFret : Option Int
deriving DecidableEq, Repr

/-- One tab measure (source: `types/songBuilder.ts` `TabMeasure`, not under
`src/`; fields fixed by `tabUtils.ts`).  The per-string records are embedded
as functions from `GuitarString`. -/
structure TabMeasure where
  chordName : String
  chordDegree : String
  positions : GuitarString → List (Option Int)
  positionsWithTechnique : GuitarString → List TabPosition
  subdivisions : Nat

/-- A full tab sheet (source: `types/songBuilder.ts` `TabSheet`). -/
structure TabSheet where
  measures : List TabMeasure
  bpm : ℚ
  beatsPerMeasure : ℚ

/-- The subdivision index a start beat quantizes to:
`Math.floor(startBeat * (subdivisions / totalBeats))`
(source: `utils/tabUtils.ts` `formatTabMeasure`). -/
def subdivisionIndexOf (subdivisions : Nat) (totalBeats : ℚ) (startBeat : ℚ) : Int :=
  jsFloor (startBeat * ((subdivisions : ℚ) / totalBeats))

/-- The per-note placement step of `formatTabMeasure`'s `forEach`: writes the
note's fret into its quantized subdivision cell when the index is in range. -/
def placeTabNote (subdivisions : Nat) (totalBeats : ℚ)
    (grids : (GuitarString → List (Option Int)) × (GuitarString → List TabPosition))
    (note : RiffNote) :
    (GuitarString → List (Option Int)) × (GuitarString → List TabPosition) :=
  let subdivisionIndex := subdivisionIndexOf subdivisions totalBeats note.startBeat
  if 0 ≤ subdivisionIndex ∧ subdivisionIndex < subdivisions then
    (fun s => if s = note.string
        then (grids.1 s).set subdivisionIndex.toNat (some note.fret)
        else grids.1 s,
     fun s => if s = note.string
        then (grids.2 s).set subdivisionIndex.toNat
          ⟨some note.fret, note.technique, note.targetFret⟩
        else grids.2 s)
  else grids

/-- Source: `utils/tabUtils.ts` `formatTabMeasure`.  Cells start as
`Array(subdivisions).fill(null)` and each note is written into its quantized
subdivision (later notes overwrite earlier ones in the same cell). -/
def formatTabMeasure (chordRiff : ChordRiff) (subdivisions : Nat) : TabMeasure :=
  let init : (GuitarString → List (Option Int)) × (GuitarString → List TabPosition) :=
    (fun _ => List.replicate subdivisions none,
     fun _ => List.replicate subdivisions ⟨none, none, none⟩)
  let grids := chordRiff.notes.foldl (placeTabNote subdivisions chordRiff.totalBeats) init
  { chordName := chordRiff.chordRoot.str ++ (QUALITY_MAP chordRiff.chordQuality).shortLabel
    chordDegree := chordRiff.chordDegree
    positions := grids.1
    positionsWithTechnique := grids.2
    subdivisions := subdivisions }

/-- Source: `utils/tabUtils.ts` `riffToTabSheet` (default `subdivisions = 8`). -/
def riffToTabSheet (riff : ProgressionRiff) (subdivisions : Nat) : TabSheet :=
  { measures := riff.chordRiffs.map (fun chordRiff => formatTabMeasure chordRiff subdivisions)
    bpm := riff.bpm
    beatsPerMeasure := 4 }

/-- Source: `utils/tabUtils.ts` `getNoteAtPosition`: out-of-range measure or
subdivision indices give `null` rather than failing. -/
def getNoteAtPosition (tabSheet : TabSheet) (measureIndex subdivisionIndex : Nat)
    (stringId : GuitarString) : Option Int :=
  match tabSheet.measures.get? measureIndex with
  | none => none
  | some measure => ((measure.positions stringId).get? subdivisionIndex).getD none

/-- MIDI resolution (source: `utils/midiUtils.ts` `TICKS_PER_BEAT`). -/
def TICKS_PER_BEAT : Nat := 480

/-- The `while ((v >>= 7) > 0)` continuation-byte loop of `writeVarLen`:
prepends `(v & 0x7f) | 0x80` for each remaining 7-bit group.  The explicit
iteration bound (`fuel`) makes the recursion structural; each iteration at
least halves `v`, so `writeVarLen` supplies enough fuel. -/
def varLenLoop : Nat → Nat → List Nat → List Nat
  | _, 0, acc => acc
  | 0, _ + 1, acc => acc
  | fuel + 1, v + 1, acc => varLenLoop fuel ((v + 1) / 128) (((v + 1) % 128 + 128) :: acc)

/-- Source: `utils/midiUtils.ts` `writeVarLen` (variable-length quantity).
For a negative JS number the arithmetic shift `v >> 7` stays negative, so
the loop never runs and the single byte `v & 0x7f`, i.e. `v mod 128`, is
produced. -/
def writeVarLen (value : Int) : List Nat :=
  if value ≤ 0 then [(value.emod 128).toNat]
  else varLenLoop value.toNat (value.toNat / 128) [value.toNat % 128]

/-- Source: `utils/midiUtils.ts` `writeInt16` (big-endian). -/
def writeInt16 (value : Nat) : List Nat := [value / 256 % 256, value % 256]

/-- Source: `utils/midiUtils.ts` `writeInt32` (big-endian). -/
def writeInt32 (value : Nat) : List Nat :=
  [value / 2 ^ 24 % 256, value / 2 ^ 16 % 256, value / 2 ^ 8 % 256, value % 256]

/-- Big-endian reading of a byte list (the inverse direction of `writeInt32`,
used to state what a chunk's declared length denotes). -/
def decodeBE (bytes : List Nat) : Nat := bytes.foldl (fun acc b => acc * 256 + b) 0

/-- Source: `utils/midiUtils.ts` `fretToMidi`. -/
def fretToMidi (stringId : GuitarString) (fret : Int) : Int :=
  (STRING_TUNINGS stringId).midi + fret

/-- The flattened event bytes of a track followed by the end-of-track meta
event (the `trackData` local of `createTrackChunk`). -/
def trackDataOf (events : List (List Nat)) : List Nat :=
  events.flatten ++ writeVarLen 0 ++ [0xff, 0x2f, 0x00]

/-- Source: `utils/midiUtils.ts` `createTrackChunk`: `"MTrk"`, big-endian
byte length, then the event data. -/
def createTrackChunk (events : List (List Nat)) : List Nat :=
  [0x4d, 0x54, 0x72, 0x6b] ++ writeInt32 (trackDataOf events).length ++ trackDataOf events

/-- Source: `utils/midiUtils.ts` `createTempoEvent`:
`FF 51 03` with `round(60000000 / bpm)` microseconds per beat, big-endian.
(The byte split uses the arithmetic shifts `>> 16`/`>> 8`, i.e. floor
division.) -/
def createTempoEvent (bpm : ℚ) : List Nat :=
  let microsecondsPerBeat := jsRound (60000000 / bpm)
  writeVarLen 0 ++ [0xff, 0x51, 0x03] ++
    [((microsecondsPerBeat.fdiv (2 ^ 16)).emod 256).toNat,
     ((microsecondsPerBeat.fdiv (2 ^ 8)).emod 256).toNat,
     (microsecondsPerBeat.emod 256).toNat]

/-- Source: `utils/midiUtils.ts` `createTrackNameEvent` (`FF 03`, a raw
length byte, then the char codes of the name). -/
def createTrackNameEvent (name : String) : List Nat :=
  let nameBytes := name.toList.map Char.toNat
  writeVarLen 0 ++ [0xff, 0x03] ++ [nameBytes.length] ++ nameBytes

/-- Source: `utils/midiUtils.ts` `createNoteOn`
(`0x90 | channel`, `note & 0x7f`, `velocity & 0x7f`). -/
def createNoteOn (deltaTime : Int) (channel : Nat) (note : Int) (velocity : Nat) : List Nat :=
  writeVarLen deltaTime ++ [0x90 + channel % 16, (note.emod 128).toNat, velocity % 128]

/-- Source: `utils/midiUtils.ts` `createNoteOff`
(`0x80 | channel`, `note & 0x7f`, velocity `0`). -/
def createNoteOff (deltaTime : Int) (channel : Nat) (note : Int) : List Nat :=
  writeVarLen deltaTime ++ [0x80 + channel % 16, (note.emod 128).toNat, 0x00]

/-- Whether a collected event is a note-on or a note-off. -/
inductive NoteEventType
  | on | off
deriving DecidableEq, Repr

/-- One absolute-time note event collected by `exportRiffToMidi` before
sorting. -/
structure NoteEvent where
  time : Int
  type : NoteEventType
  note : Int
  velocity : Nat
deriving DecidableEq, Repr

/-- The technique-dependent velocity of `exportRiffToMidi` (legato softer,
muted softest, harmonic slightly soft). -/
def velocityOfTechnique (technique : Option Technique) : Nat :=
  if technique = some .hammerOn ∨ technique = some .pullOff then 80
  else if technique = some .muted then 60
  else if technique = some .harmonic then 90
  else 100

/-- The absolute-time on/off event pair for one riff note in a measure
starting at `measureStartTick`. -/
def noteEventsOfNote (measureStartTick : Int) (note : RiffNote) : List NoteEvent :=
  let midiNote := fretToMidi note.string note.fret
  let startTick := measureStartTick + jsRound (note.startBeat * TICKS_PER_BEAT)
  let endTick := startTick + jsRound (note.duration * TICKS_PER_BEAT)
  [⟨startTick, .on, midiNote, velocityOfTechnique note.technique⟩,
   ⟨endTick, .off, midiNote, 0⟩]

/-- The absolute-time event collection loop of `exportRiffToMidi`: each
measure occupies `4 * TICKS_PER_BEAT` ticks. -/
def collectNoteEvents (measureStartTick : Int) : List ChordRiff → List NoteEvent
  | [] => []
  | chordRiff :: rest =>
    chordRiff.notes.flatMap (noteEventsOfNote measureStartTick) ++
      collectNoteEvents (measureStartTick + 4 * TICKS_PER_BEAT) rest

/-- The event comparator of `exportRiffToMidi` as a total preorder: by time,
note-offs before note-ons at the same time. -/
def noteEventLE (a b : NoteEvent) : Bool :=
  a.time < b.time ∨ (a.time = b.time ∧ (a.type = .off ∨ b.type = .on))

/-- The collected events of a riff after the sort (time ascending, offs
before ons at equal times). -/
def sortedNoteEvents (riff : ProgressionRiff) : List NoteEvent :=
  stableSort noteEventLE (collectNoteEvents 0 riff.chordRiffs)

/-- The delta-time conversion loop of `exportRiffToMidi`: each event is
encoded against the previous event's absolute time (`lastTime` starts at 0). -/
def deltaEncode (lastTime : Int) : List NoteEvent → List (List Nat)
  | [] => []
  | event :: rest =>
    (if event.type = .on
      then createNoteOn (event.time - lastTime) 0 event.note event.velocity
      else createNoteOff (event.time - lastTime) 0 event.note) :: deltaEncode event.time rest

/-- The delta times fed to the encoder, in emission order (the `deltaTime`
locals of `deltaEncode`'s loop). -/
def deltaTimes (lastTime : Int) : List NoteEvent → List Int
  | [] => []
  | event :: rest => (event.time - lastTime) :: deltaTimes event.time rest

/-- The full event list of the single track of `exportRiffToMidi`:
track name, tempo, then the delta-encoded note events. -/
def riffTrackEvents (riff : ProgressionRiff) : List (List Nat) :=
  [createTrackNameEvent "Guitar Riff", createTempoEvent riff.bpm] ++
    deltaEncode 0 (sortedNoteEvents riff)

/-- Source: `utils/midiUtils.ts` `exportRiffToMidi`: `"MThd"` header
(length 6, format 0, one track, division 480) followed by the single track
chunk. -/
def exportRiffToMidi (riff : ProgressionRiff) : List Nat :=
  ([0x4d, 0x54, 0x68, 0x64] ++ writeInt32 6 ++ writeInt16 0 ++ writeInt16 1 ++
    writeInt16 TICKS_PER_BEAT) ++ createTrackChunk (riffTrackEvents riff)

/-- Source: `utils/riffGenerator.ts` `MELODIC_PATTERNS` (beat onsets). -/
def MELODIC_PATTERNS : List (List ℚ) :=
  [[0, 1, 2, 3], [0, 1/2, 1, 2, 5/2, 3], [0, 1, 3/2, 2, 3, 7/2], [0, 1/2, 1, 3/2, 2, 3]]

/-- Source: `utils/riffGenerator.ts` `ARPEGGIATED_PATTERNS`. -/
def ARPEGGIATED_PATTERNS : List (List ℚ) :=
  [[0, 1/2, 1, 3/2, 2, 5/2, 3, 7/2], [0, 1, 2, 3, 2, 1], [0, 1/2, 1, 2, 5/2, 3]]

/-- Source: `utils/riffGenerator.ts` `BASS_PATTERNS`. -/
def BASS_PATTERNS : List (List ℚ) :=
  [[0, 2], [0, 1, 2, 3], [0, 1/2, 2, 5/2], [0, 2, 5/2, 3]]

/-- Source: `utils/riffGenerator.ts` `COMPLEX_PATTERNS`. -/
def COMPLEX_PATTERNS : List (List ℚ) :=
  [ [0, 1/4, 1/2, 1, 3/2, 2, 9/4, 5/2, 3, 7/2]
  , [0, 1/2, 3/4, 1, 3/2, 2, 5/2, 3, 13/4, 7/2]
  , [0, 1/4, 1/2, 1, 5/4, 2, 5/2, 11/4, 3, 7/2]
  , [0, 1/2, 1, 5/4, 3/2, 2, 9/4, 11/4, 3, 7/2] ]

/-- Source: `utils/riffGenerator.ts` `TECHNIQUE_WEIGHTS`. -/
def TECHNIQUE_WEIGHTS : List (Technique × ℚ) :=
  [(.normal, 35), (.hammerOn, 15), (.pullOff, 15), (.slideUp, 10),
   (.slideDown, 8), (.bend, 7), (.harmonic, 5), (.muted, 5)]

/-- Source: `utils/riffGenerator.ts` `HARMONIC_FRETS`. -/
def HARMONIC_FRETS : List Int := [5, 7, 12]

/-- The weight-subtraction loop of `selectTechnique`: subtract each weight in
order and return the first technique driving the remainder to `<= 0`
(falling back to `normal`). -/
def techniqueFromWeights : List (Technique × ℚ) → ℚ → Technique
  | [], _ => .normal
  | (technique, weight) :: rest, random =>
    if random - weight ≤ 0 then technique else techniqueFromWeights rest (random - weight)

/-- Source: `utils/riffGenerator.ts` `selectTechnique`.  The two
`Math.random()` draws are explicit (`r1` always drawn; `r2` overwrites the
roll, scaled by 0.8, when a previous note exists). -/
def selectTechnique (prevNote : Option RiffNote) (r1 r2 : ℚ) : Technique :=
  let totalWeight := (TECHNIQUE_WEIGHTS.map (fun t => t.2)).sum
  let random := r1 * totalWeight
  let random := if prevNote.isSome then r2 * totalWeight * (4/5) else random
  techniqueFromWeights TECHNIQUE_WEIGHTS random

/-- A fretboard position candidate (the anonymous `{ string, fret }` records
of `riffGenerator.ts`). -/
structure NotePos where
  string : GuitarString
  fret : Int
deriving DecidableEq, Repr

/-- `[lo, lo+1, …, hi]` over the integers (embeds the inclusive `for` fret
loops). -/
def intRange (lo hi : Int) : List Int :=
  (List.range (hi + 1 - lo).toNat).map (fun k => lo + k)

/-- Source: `utils/riffGenerator.ts` `findAllNotePositions`.  A JS
`undefined` target (modelled `none`) matches no fret, giving `[]`. -/
def findAllNotePositions (targetNote : Option NoteId)
    (preferredStrings : List GuitarString) (fretMin fretMax : Int) : List NotePos :=
  match targetNote with
  | none => []
  | some target =>
    preferredStrings.flatMap (fun stringId =>
      (intRange fretMin fretMax).filterMap (fun fret =>
        if (((STRING_TUNINGS stringId).index : Int) + fret).tmod 12 = (NOTE_TO_INDEX target : Int)
          then some ⟨stringId, fret⟩ else none))

/-- Source: `utils/riffGenerator.ts` `findNotePosition`.  The
`positions.sort` call uses a comparator that itself draws `Math.random()`, so
its outcome is not a function of the inputs; `sortStep` is the
environment-chosen rearrangement produced by that call.  The final picks
(`positions[floor(r*len)]`, `topChoices[floor(r*len)]`) use the draw
`rPick`. -/
def findNotePosition (targetNote : Option NoteId)
    (preferredStrings : List GuitarString) (fretMin fretMax : Int)
    (prevPosition : Option NotePos) (sortStep : List NotePos → List NotePos)
    (rPick : ℚ) : Option NotePos :=
  let positions := findAllNotePositions targetNote preferredStrings fretMin fretMax
  let positions :=
    if positions.isEmpty then findAllNotePositions targetNote GUITAR_STRINGS fretMin fretMax
    else positions
  if positions.isEmpty then none
  else if positions.length = 1 then positions.head?
  else
    match prevPosition with
    | some _ =>
      let topChoices := (sortStep positions).take 2
      jsIndex topChoices (jsFloor (rPick * topChoices.length))
    | none => jsIndex positions (jsFloor (rPick * positions.length))

/-- Source: `utils/riffGenerator.ts` `getChordTones`.  (`QUALITY_MAP` is
total here, so the `!qualityDef` fallback of the source is unreachable.) -/
def getChordTones (root : NoteId) (quality : ChordQuality) : List NoteId :=
  (QUALITY_MAP quality).intervals.map (calculateNoteFromInterval root)

/-- Source: `utils/riffGenerator.ts` `getScaleNotes`: best compatible scale,
falling back to the chord tones. -/
def getScaleNotes (root : NoteId) (quality : ChordQuality) : List NoteId :=
  match getBestScaleForChord quality SCALE_LIST with
  | none => getChordTones root quality
  | some scale => scale.intervals.map (calculateNoteFromInterval root)

/-- One `Math.random()` outcome per call site and onset index, plus the
outcome of the impure `positions.sort` call: `generateChordRiff` is a pure
function of its inputs and a `RiffOracle`.  Quantifying over all oracles
covers every random outcome of the source; real draws lie in `[0, 1)`. -/
structure RiffOracle where
  patternPick : ℚ
  chordToneRoll : Nat → ℚ
  chordTonePick : Nat → ℚ
  approachRoll : Nat → ℚ
  chromaticRoll : Nat → ℚ
  chromaticPick : Nat → ℚ
  scaleTonePick : Nat → ℚ
  posPick : Nat → ℚ
  sortStep : Nat → List NotePos → List NotePos
  techRoll1 : Nat → ℚ
  techRoll2 : Nat → ℚ
  slidePick : Nat → ℚ
  bendPick : Nat → ℚ

/-- The per-chord generation context assembled by `generateChordRiff`'s
style switch. -/
structure RiffGenContext where
  chordRoot : NoteId
  chordQuality : ChordQuality
  chordDegree : String
  nextChordRoot : Option NoteId
  beatsPerChord : ℚ
  chordTones : List NoteId
  scaleTones : List NoteId
  style : RiffStyle
  preferredStrings : List GuitarString
  fretMin : Int
  fretMax : Int
  useComplexTechniques : Bool
  oracle : RiffOracle

/-- The target-note / interval selection of `generateChordRiff` for the
onset at index `n` and beat `beatPosition`, by style. -/
def chooseTargetNote (ctx : RiffGenContext) (n : Nat) (beatPosition : ℚ) :
    Option NoteId × Option IntervalSymbol :=
  let isStrongBeat := beatPosition = 0 ∨ beatPosition = 2
  let isLastBeat := 3 ≤ beatPosition
  match ctx.style with
  | .complex =>
    if ctx.oracle.chordToneRoll n < 2/5 ∨ isStrongBeat then
      let toneIndex := jsFloor (ctx.oracle.chordTonePick n * ctx.chordTones.length)
      (jsIndex ctx.chordTones toneIndex,
       jsIndex (QUALITY_MAP ctx.chordQuality).intervals toneIndex)
    else
      match ctx.nextChordRoot with
      | some nextRoot =>
        if isLastBeat then
          let approachIndex := ((NOTE_TO_INDEX nextRoot : Int) +
            (if ctx.oracle.approachRoll n < 1/2 then -1 else 1) + 12).tmod 12
          (jsIndex INDEX_TO_NOTE approachIndex, none)
        else if ctx.oracle.chromaticRoll n < 3/20 then
          (jsIndex INDEX_TO_NOTE (jsFloor (ctx.oracle.chromaticPick n * 12)), none)
        else
          (jsIndex ctx.scaleTones (jsFloor (ctx.oracle.scaleTonePick n * ctx.scaleTones.length)),
           none)
      | none =>
        if ctx.oracle.chromaticRoll n < 3/20 then
          (jsIndex INDEX_TO_NOTE (jsFloor (ctx.oracle.chromaticPick n * 12)), none)
        else
          (jsIndex ctx.scaleTones (jsFloor (ctx.oracle.scaleTonePick n * ctx.scaleTones.length)),
           none)
  | .arpeggiated =>
    let toneIndex := n % ctx.chordTones.length
    (jsIndex ctx.chordTones toneIndex,
     jsIndex (QUALITY_MAP ctx.chordQuality).intervals toneIndex)
  | .bassDriven =>
    if isStrongBeat then (some ctx.chordRoot, some .R)
    else
      ((if 2 < ctx.chordTones.length then jsIndex ctx.chordTones 2 else jsIndex ctx.chordTones 0),
       some .n5)
  | .melodic =>
    if isStrongBeat then
      let toneIndex := jsFloor (ctx.oracle.chordTonePick n * ctx.chordTones.length)
      (jsIndex ctx.chordTones toneIndex,
       jsIndex (QUALITY_MAP ctx.chordQuality).intervals toneIndex)
    else
      match ctx.nextChordRoot with
      | some nextRoot =>
        if isLastBeat then
          (jsIndex INDEX_TO_NOTE (((NOTE_TO_INDEX nextRoot : Int) - 1 + 12).tmod 12), none)
        else
          (jsIndex ctx.scaleTones (jsFloor (ctx.oracle.scaleTonePick n * ctx.scaleTones.length)),
           none)
      | none =>
        (jsIndex ctx.scaleTones (jsFloor (ctx.oracle.scaleTonePick n * ctx.scaleTones.length)),
         none)

/-- The technique-adjustment chain of `generateChordRiff` (complex style):
given the selected technique, the context checks of the source's
`else if` ladder decide the emitted `(fret, technique, targetFret)`.  A
technique whose context check fails leaves `technique` undefined (the note
plays as normal). -/
def applyComplexTechnique (fretMin fretMax : Int) (prevNote : Option RiffNote)
    (position : NotePos) (selectedTechnique : Technique) (slidePick bendPick : ℚ) :
    Int × Option Technique × Option Int :=
  if selectedTechnique = .harmonic then
    match HARMONIC_FRETS.find? (fun f => fretMin ≤ f ∧ f ≤ fretMax) with
    | some harmonicFret => (harmonicFret, some .harmonic, none)
    | none => (position.fret, none, none)
  else
    match selectedTechnique, prevNote with
    | .hammerOn, some prev =>
      if prev.string = position.string ∧ prev.fret < position.fret
        then (position.fret, some .hammerOn, none) else (position.fret, none, none)
    | .pullOff, some prev =>
      if prev.string = position.string ∧ position.fret < prev.fret
        then (position.fret, some .pullOff, none) else (position.fret, none, none)
    | .slideUp, _ =>
      let slideAmount := jsFloor (slidePick * 2) + 2
      if slideAmount ≤ position.fret
        then (position.fret - slideAmount, some .slideUp, some position.fret)
        else (position.fret, none, none)
    | .slideDown, _ =>
      let slideAmount := jsFloor (slidePick * 2) + 2
      if position.fret + slideAmount ≤ fretMax
        then (position.fret, some .slideDown, some (position.fret + slideAmount))
        else (position.fret, none, none)
    | .bend, _ =>
      if position.string.toNat ≤ 4 ∧ 5 ≤ position.fret
        then (position.fret, some .bend, some (position.fret + (if bendPick < 1/2 then 1 else 2)))
        else (position.fret, none, none)
    | .muted, _ => (position.fret, some .muted, none)
    | _, _ => (position.fret, none, none)

/-- The body of `generateChordRiff`'s `pattern.forEach`: the note emitted (if
any) for the onset at index `n` and beat `beatPosition`, where `nextOnset` is
`pattern[n+1]` (if any) and `prevNote` the last note emitted so far. -/
def onsetNote (ctx : RiffGenContext) (n : Nat) (beatPosition : ℚ)
    (nextOnset : Option ℚ) (prevNote : Option RiffNote) : Option RiffNote :=
  let (targetNote, interval) := chooseTargetNote ctx n beatPosition
  let prevPosition := prevNote.map (fun p => NotePos.mk p.string p.fret)
  match findNotePosition targetNote ctx.preferredStrings ctx.fretMin ctx.fretMax
      prevPosition (ctx.oracle.sortStep n) (ctx.oracle.posPick n) with
  | none => none
  | some position =>
    let duration := match nextOnset with
      | some next => next - beatPosition
      | none => ctx.beatsPerChord - beatPosition
    let adjusted :=
      if ctx.useComplexTechniques then
        applyComplexTechnique ctx.fretMin ctx.fretMax prevNote position
          (selectTechnique prevNote (ctx.oracle.techRoll1 n) (ctx.oracle.techRoll2 n))
          (ctx.oracle.slidePick n) (ctx.oracle.bendPick n)
      else (position.fret, none, none)
    some { nid := ctx.chordDegree ++ "-" ++ toString n
           string := position.string
           fret := adjusted.1
           duration := min duration 1
           startBeat := beatPosition
           note := targetNote
           interval := interval
           technique := adjusted.2.1
           targetFret := adjusted.2.2 }

/-- The `pattern.forEach` loop: onsets at or beyond `beatsPerChord` are
skipped, otherwise the onset's note (if a position was found) is appended. -/
def genNotesLoop (ctx : RiffGenContext) : Nat → List ℚ → List RiffNote → List RiffNote
  | _, [], notes => notes
  | n, beatPosition :: rest, notes =>
    if ctx.beatsPerChord ≤ beatPosition then genNotesLoop ctx (n + 1) rest notes
    else
      match onsetNote ctx n beatPosition rest.head? notes.getLast? with
      | none => genNotesLoop ctx (n + 1) rest notes
      | some note => genNotesLoop ctx (n + 1) rest (notes ++ [note])

/-- Source: `utils/riffGenerator.ts` `generateChordRiff`: pick a rhythmic
pattern, strings and fret range by style, then emit one note per surviving
onset.  `none` models the crash on an out-of-range pattern pick
(`undefined.forEach`); real draws always give `some`. -/
def generateChordRiff (chordRoot : NoteId) (chordQuality : ChordQuality)
    (chordDegree : String) (nextChordRoot : Option NoteId) (style : RiffStyle)
    (beatsPerChord : ℚ) (oracle : RiffOracle) : Option ChordRiff :=
  let chordTones := getChordTones chordRoot chordQuality
  let scaleTones := getScaleNotes chordRoot chordQuality
  let styleChoice : List (List ℚ) × List GuitarString × Int × Int × Bool :=
    match style with
    | .melodic => (MELODIC_PATTERNS, [.s1, .s2, .s3, .s4], 0, 12, false)
    | .arpeggiated => (ARPEGGIATED_PATTERNS, [.s1, .s2, .s3, .s4, .s5], 0, 9, false)
    | .bassDriven => (BASS_PATTERNS, [.s6, .s5, .s4], 0, 5, false)
    | .complex => (COMPLEX_PATTERNS, [.s1, .s2, .s3, .s4, .s5, .s6], 0, 15, true)
  match jsIndex styleChoice.1 (jsFloor (oracle.patternPick * styleChoice.1.length)) with
  | none => none
  | some pattern =>
    let ctx : RiffGenContext :=
      { chordRoot := chordRoot
        chordQuality := chordQuality
        chordDegree := chordDegree
        nextChordRoot := nextChordRoot
        beatsPerChord := beatsPerChord
        chordTones := chordTones
        scaleTones := scaleTones
        style := style
        preferredStrings := styleChoice.2.1
        fretMin := styleChoice.2.2.1
        fretMax := styleChoice.2.2.2.1
        useComplexTechniques := styleChoice.2.2.2.2
        oracle := oracle }
    some { chordRoot := chordRoot
           chordQuality := chordQuality
           chordDegree := chordDegree
           notes := genNotesLoop ctx 0 pattern []
           totalBeats := beatsPerChord }

/-- The claim's words for C6, for comparison with the code: the element of
`{5, 7, 12}` nearest to `fret` (ties to the lower fret). -/
def specNearestHarmonicFret (fret : Int) : Int :=
  if |fret - 5| ≤ |fret - 7| ∧ |fret - 5| ≤ |fret - 12| then 5
  else if |fret - 7| ≤ |fret - 12| then 7
  else 12

/-- Source: `utils/riffGenerator.ts` `updateRiffNote`.  `none` models the
crash on an out-of-range measure index (`undefined.map`); the TS `newNote`
parameter has type `NoteId`, i.e. is always a `some`. -/
def updateRiffNote (riff : ProgressionRiff) (measureIndex : Nat) (noteId : String)
    (newString : GuitarString) (newFret : Int) (newNote : Option NoteId) :
    Option ProgressionRiff :=
  match riff.chordRiffs.get? measureIndex with
  | none => none
  | some chordRiff =>
    some { riff with
      chordRiffs := riff.chordRiffs.set measureIndex
        { chordRiff with
          notes := chordRiff.notes.map (fun note =>
            if note.nid = noteId
              then { note with string := newString, fret := newFret, note := newNote }
              else note) } }

/-- Source: `utils/riffGenerator.ts` `addRiffNote`.  The ambient
`Date.now()` used for the new note's id is made explicit as `now`; the
post-insert sort by `startBeat` is the stable sort of `Array.sort`. -/
def addRiffNote (riff : ProgressionRiff) (measureIndex : Nat)
    (stringId : GuitarString) (fret : Int) (startBeat : ℚ) (note : Option NoteId)
    (now : Nat) : Option ProgressionRiff :=
  match riff.chordRiffs.get? measureIndex with
  | none => none
  | some chordRiff =>
    let newNote : RiffNote :=
      { nid := chordRiff.chordDegree ++ "-" ++ toString now
        string := stringId
        fret := fret
        duration := 1/2
        startBeat := startBeat
        note := note
        interval := none
        technique := none
        targetFret := none }
    some { riff with
      chordRiffs := riff.chordRiffs.set measureIndex
        { chordRiff with
          notes := stableSort (fun a b => a.startBeat ≤ b.startBeat)
            (chordRiff.notes ++ [newNote]) } }

/-- Source: `utils/riffGenerator.ts` `removeRiffNote`. -/
def removeRiffNote (riff : ProgressionRiff) (measureIndex : Nat) (noteId : String) :
    Option ProgressionRiff :=
  match riff.chordRiffs.get? measureIndex with
  | none => none
  | some chordRiff =>
    some { riff with
      chordRiffs := riff.chordRiffs.set measureIndex
        { chordRiff with notes := chordRiff.notes.filter (fun note => note.nid ≠ noteId) } }

/-- The data-model invariant on riffs used by the MIDI-ordering claim: every
note's start beat and duration are non-negative (the spec schedules notes at
beat offsets within a measure). -/
def RiffWellFormed (riff : ProgressionRiff) : Prop :=
  ∀ cr ∈ riff.chordRiffs, ∀ note ∈ cr.notes, 0 ≤ note.startBeat ∧ 0 ≤ note.duration

/-- A sample note on the low E string, fret 3, on the measure's first beat. -/
def sampleNoteA : RiffNote :=
  { nid := "I-0"
    string := .s6
    fret := 3
    duration := 1
    startBeat := 0
    note := some .G
    interval := some .R
    technique := none
    targetFret := none }

/-- A second sample note on the same string, starting within the same eighth
subdivision as `sampleNoteA` (beat 1/4 quantizes to subdivision 0 of 8). -/
def sampleNoteB : RiffNote :=
  { nid := "I-1"
    string := .s6
    fret := 5
    duration := 1/2
    startBeat := 1/4
    note := some .A
    interval := none
    technique := none
    targetFret := none }

/-- A sample one-measure riff holding both sample notes. -/
def sampleRiff : ProgressionRiff :=
  { rid := "r"
    chordRiffs := [{ chordRoot := .C
                     chordQuality := .major
                     chordDegree := "I"
                     notes := [sampleNoteA, sampleNoteB]
                     totalBeats := 4 }]
    bpm := 120
    style := .melodic }

/-- A sample note whose start beat (3/2) lands exactly on subdivision 3 of 8. -/
def boundaryNote : RiffNote :=
  { nid := "IV-0"
    string := .s3
    fret := 7
    duration := 1/2
    startBeat := 3/2
    note := some .D
    interval := none
    technique := none
    targetFret := none }

/-- A sample one-measure riff whose only note sits exactly on a subdivision
boundary with no other note in its cell. -/
def boundaryRiff : ProgressionRiff :=
  { rid := "r2"
    chordRiffs := [{ chordRoot := .F
                     chordQuality := .major
                     chordDegree := "IV"
                     notes := [boundaryNote]
                     totalBeats := 4 }]
    bpm := 90
    style := .melodic }

/-- The first triad position returned for root C, quality major (used to
instantiate the triad claims at a concrete output element). -/
def triadSample : TriadPosition :=
  { pid := "5-4-3-3-2-0"
    notes := [⟨.s5, 3, .R, .C⟩, ⟨.s4, 2, .n3, .E⟩, ⟨.s3, 0, .n5, .G⟩]
    minFret := 0
    maxFret := 3
    span := 3
    stringSet := (.s5, .s4, .s3) }

/-- A concrete random outcome for complex-style generation: the onset-0 draws
pick pattern 0, the chord tone E, the fretboard position (string 1, fret 12)
and the `harmonic` technique; every later onset draws an out-of-range tone
index, so no further note is emitted.  `sortStep` is the identity
rearrangement (onset 0 never sorts: it has no previous note). -/
def harmonicOracle : RiffOracle :=
  { patternPick := 0
    chordToneRoll := fun _ => 0
    chordTonePick := fun n => if n = 0 then 1/2 else 2
    approachRoll := fun _ => 0
    chromaticRoll := fun _ => 0
    chromaticPick := fun _ => 2
    scaleTonePick := fun _ => 2
    posPick := fun n => if n = 0 then 1/6 else 2
    sortStep := fun _ positions => positions
    techRoll1 := fun _ => 92/100
    techRoll2 := fun _ => 92/100
    slidePick := fun _ => 0
    bendPick := fun _ => 0 }

/-- The single note `generateChordRiff` emits under `harmonicOracle`: chosen
at (string 1, fret 12), snapped to fret 5 by the harmonic branch. -/
def harmonicNote : RiffNote :=
  { nid := "I-0"
    string := .s1
    fret := 5
    duration := 1/4
    startBeat := 0
    note := some .E
    interval := some .n3
    technique := some .harmonic
    targetFret := none }

/-- The measure `generateChordRiff .C .major "I" none .complex 4` produces
under `harmonicOracle`. -/
def harmonicChordRiff : ChordRiff :=
  { chordRoot := .C
    chordQuality := .major
    chordDegree := "I"
    notes := [harmonicNote]
    totalBeats := 4 }

/-- The per-chord context `generateChordRiff .C .major "I" none .complex 4`
builds under `harmonicOracle` (named so the evaluation of the run can be
staged). -/
def harmonicCtx : RiffGenContext :=
  { chordRoot := .C
    chordQuality := .major
    chordDegree := "I"
    nextChordRoot := none
    beatsPerChord := 4
    chordTones := getChordTones .C .major
    scaleTones := getScaleNotes .C .major
    style := .complex
    preferredStrings := [.s1, .s2, .s3, .s4, .s5, .s6]
    fretMin := 0
    fretMax := 15
    useComplexTechniques := true
    oracle := harmonicOracle }

/-- The frame property of the riff note-edit operations: the result agrees
with the input riff everywhere except (at most) the note list of the measure
at `i` — same id, bpm and style, same measure list length, identical measures
at every other index, and identical chord identity fields at `i`. -/
def RiffFrameAt (riff r' : ProgressionRiff) (i : Nat) : Prop :=
  r'.rid = riff.rid ∧ r'.bpm = riff.bpm ∧ r'.style = riff.style ∧
  r'.chordRiffs.length = riff.chordRiffs.length ∧
  (∀ j, j ≠ i → r'.chordRiffs.get? j = riff.chordRiffs.get? j) ∧
  ∃ cr cr', riff.chordRiffs.get? i = some cr ∧ r'.chordRiffs.get? i = some cr' ∧
    cr'.chordRoot = cr.chordRoot ∧ cr'.chordQuality = cr.chordQuality ∧
    cr'.chordDegree = cr.chordDegree ∧ cr'.totalBeats = cr.totalBeats

/-- A riff with no measures (the spec's "MIDI export of an empty riff"
boundary case). -/
def emptyRiff : ProgressionRiff :=
  { rid := "empty", chordRiffs := [], bpm := 120, style := .melodic }

/-! Helper lemmas about `stableSort`. -/

theorem mem_stableInsert {α : Type} (le : α → α → Bool) (a x : α) (l : List α) :
    x ∈ stableInsert le a l ↔ x = a ∨ x ∈ l := by
  induction l with
  | nil => simp [stableInsert]
  | cons b t ih =>
    unfold stableInsert
    split
    · simp only [List.mem_cons, ih]
      tauto
    · simp only [List.mem_cons]

theorem stableInsert_perm {α : Type} (le : α → α → Bool) (a : α) (l : List α) :
    (stableInsert le a l).Perm (a :: l) := by
  induction l with
  | nil => simp [stableInsert]
  | cons b t ih =>
    unfold stableInsert
    split
    · exact (ih.cons b).trans (List.Perm.swap a b t)
    · exact List.Perm.refl _

theorem foldl_stableInsert_perm {α : Type} (le : α → α → Bool) :
    ∀ (l acc : List α), (l.foldl (fun sorted a => stableInsert le a sorted) acc).Perm (acc ++ l) := by
  intro l
  induction l with
  | nil => simp
  | cons x t ih =>
    intro acc
    refine (ih (stableInsert le x acc)).trans ?_
    refine ((stableInsert_perm le x acc).append_right t).trans ?_
    exact List.perm_middle.symm

theorem stableSort_perm {α : Type} (le : α → α → Bool) (l : List α) :
    (stableSort le l).Perm l := by
  simpa [stableSort] using foldl_stableInsert_perm le l []

theorem mem_stableSort {α : Type} (le : α → α → Bool) (x : α) (l : List α) :
    x ∈ stableSort le l ↔ x ∈ l :=
  (stableSort_perm le l).mem_iff

theorem pairwise_stableInsert {α : Type} (le : α → α → Bool)
    (htot : ∀ a b, le a b = true ∨ le b a = true)
    (htrans : ∀ a b c, le a b = true → le b c = true → le a c = true)
    (a : α) (l : List α) (h : l.Pairwise (fun x y => le x y = true)) :
    (stableInsert le a l).Pairwise (fun x y => le x y = true) := by
  induction l with
  | nil => simp [stableInsert]
  | cons b t ih =>
    rcases h with - | ⟨hb, ht⟩
    unfold stableInsert
    split
    case isTrue hba =>
      refine List.Pairwise.cons ?_ (ih ht)
      intro x hx
      rcases (mem_stableInsert le a x t).1 hx with rfl | hxt
      · exact hba
      · exact hb x hxt
    case isFalse hba =>
      have hab : le a b = true := (htot a b).resolve_right (by simpa using hba)
      refine List.Pairwise.cons ?_ (List.Pairwise.cons hb ht)
      intro x hx
      rcases List.mem_cons.1 hx with rfl | hxt
      · exact hab
      · exact htrans a b x hab (hb x hxt)

theorem pairwise_stableSort {α : Type} (le : α → α → Bool)
    (htot : ∀ a b, le a b = true ∨ le b a = true)
    (htrans : ∀ a b c, le a b = true → le b c = true → le a c = true)
    (l : List α) : (stableSort le l).Pairwise (fun x y => le x y = true) := by
  suffices h : ∀ (l acc : List α), acc.Pairwise (fun x y => le x y = true) →
      (l.foldl (fun sorted a => stableInsert le a sorted) acc).Pairwise
        (fun x y => le x y = true) by
    exact h l [] List.Pairwise.nil
  intro l
  induction l with
  | nil => intro acc hacc; simpa using hacc
  | cons x t ih =>
    intro acc hacc
    exact ih (stableInsert le x acc) (pairwise_stableInsert le htot htrans x acc hacc)

/-! Helper lemmas about `writeVarLen`. -/

theorem varLenLoop_zero (fuel : Nat) (acc : List Nat) : varLenLoop fuel 0 acc = acc := by
  cases fuel <;> rfl

theorem varLenLoop_enough_fuel :
    ∀ (v fuel₁ fuel₂ : Nat) (acc : List Nat), v ≤ fuel₁ → v ≤ fuel₂ →
      varLenLoop fuel₁ v acc = varLenLoop fuel₂ v acc := by
  intro v
  induction v using Nat.strong_induction_on with
  | _ v ih =>
    intro fuel₁ fuel₂ acc h₁ h₂
    match v with
    | 0 => rw [varLenLoop_zero, varLenLoop_zero]
    | w + 1 =>
      match fuel₁, fuel₂ with
      | f₁ + 1, f₂ + 1 =>
        show varLenLoop f₁ ((w + 1) / 128) _ = varLenLoop f₂ ((w + 1) / 128) _
        exact ih ((w + 1) / 128) (by omega) f₁ f₂ _ (by omega) (by omega)

theorem varLenLoop_append (v : Nat) :
    ∀ (fuel : Nat) (acc : List Nat), v ≤ fuel →
      varLenLoop fuel v acc = varLenLoop fuel v [] ++ acc := by
  induction v using Nat.strong_induction_on with
  | _ v ih =>
    intro fuel acc hfuel
    match v with
    | 0 => rw [varLenLoop_zero, varLenLoop_zero]; rfl
    | w + 1 =>
      match fuel with
      | fuel + 1 =>
        show varLenLoop fuel ((w + 1) / 128) (((w + 1) % 128 + 128) :: acc) =
          varLenLoop fuel ((w + 1) / 128) (((w + 1) % 128 + 128) :: []) ++ acc
        by_cases hf : (w + 1) / 128 ≤ fuel
        · rw [ih ((w + 1) / 128) (by omega) fuel _ hf]
          conv_rhs => rw [ih ((w + 1) / 128) (by omega) fuel _ hf]
          simp
        · omega

theorem varLenLoop_bytes (v : Nat) :
    ∀ (fuel : Nat), v ≤ fuel → ∀ b ∈ varLenLoop fuel v [], 128 ≤ b ∧ b < 256 := by
  induction v using Nat.strong_induction_on with
  | _ v ih =>
    intro fuel hfuel b hb
    match v with
    | 0 => rw [varLenLoop_zero] at hb; simp at hb
    | w + 1 =>
      match fuel with
      | fuel + 1 =>
        rw [show varLenLoop (fuel + 1) (w + 1) [] =
            varLenLoop fuel ((w + 1) / 128) [((w + 1) % 128 + 128)] from rfl,
          varLenLoop_append ((w + 1) / 128) fuel _ (by omega)] at hb
        rcases List.mem_append.1 hb with h | h
        · exact ih ((w + 1) / 128) (by omega) fuel (by omega) b h
        · simp at h
          omega

theorem varLenLoop_foldl :
    ∀ (v fuel a : Nat), v ≤ fuel →
      (varLenLoop fuel v []).foldl (fun acc b => acc * 128 + b % 128) a =
        a * 128 ^ (varLenLoop fuel v []).length + v := by
  intro v
  induction v using Nat.strong_induction_on with
  | _ v ih =>
    intro fuel a hfuel
    match v with
    | 0 => rw [varLenLoop_zero]; simp
    | w + 1 =>
      match fuel with
      | fuel + 1 =>
        rw [show varLenLoop (fuel + 1) (w + 1) [] =
            varLenLoop fuel ((w + 1) / 128) [((w + 1) % 128 + 128)] from rfl,
          varLenLoop_append ((w + 1) / 128) fuel _ (by omega)]
        rw [List.foldl_append, List.length_append]
        rw [ih ((w + 1) / 128) (by omega) fuel a (by omega)]
        simp only [List.foldl, List.length_cons, List.length_nil]
        have hmod : ((w + 1) % 128 + 128) % 128 = (w + 1) % 128 := by omega
        rw [hmod, pow_succ]
        have hdm : 128 * ((w + 1) / 128) + (w + 1) % 128 = w + 1 := Nat.div_add_mod (w + 1) 128
        calc (a * 128 ^ (varLenLoop fuel ((w + 1) / 128) []).length + (w + 1) / 128) * 128 +
              (w + 1) % 128
            = a * (128 ^ (varLenLoop fuel ((w + 1) / 128) []).length * 128) +
              (128 * ((w + 1) / 128) + (w + 1) % 128) := by ring
          _ = a * (128 ^ (varLenLoop fuel ((w + 1) / 128) []).length * 128) + (w + 1) := by
              rw [hdm]

/-- C9: for every non-negative value below 2^28, `writeVarLen` yields a
non-empty byte list whose non-final bytes have the high bit set (they lie in
[128, 256)), whose final byte has the high bit clear (it is below 128), and
whose 7-bit payloads, folded big-endian, reconstruct the value. -/
theorem writeVarLen_varlen_encoding (v : Nat) (h : v < 2 ^ 28) :
    writeVarLen (v : Int) ≠ [] ∧
    (∀ b ∈ (writeVarLen (v : Int)).dropLast, 128 ≤ b ∧ b < 256) ∧
    (∀ b, (writeVarLen (v : Int)).getLast? = some b → b < 128) ∧
    (writeVarLen (v : Int)).foldl (fun acc b => acc * 128 + b % 128) 0 = v := by
  rcases Nat.eq_zero_or_pos v with rfl | hv
  · have h0 : writeVarLen ((0 : Nat) : Int) = [0] := rfl
    refine ⟨by rw [h0]; simp, by rw [h0]; simp, ?_, by rw [h0]; simp⟩
    intro b hb
    rw [h0] at hb
    simp at hb
    omega
  · have hne : ¬((v : Int) ≤ 0) := by
      simp only [not_le]
      exact_mod_cast hv
    have hdiv : v / 128 ≤ v := Nat.div_le_self v 128
    have heq : writeVarLen (v : Int) = varLenLoop v (v / 128) [] ++ [v % 128] := by
      unfold writeVarLen
      rw [if_neg hne, Int.toNat_natCast]
      exact varLenLoop_append (v / 128) v [v % 128] hdiv
    refine ⟨by rw [heq]; simp, ?_, ?_, ?_⟩
    · rw [heq, List.dropLast_concat]
      exact varLenLoop_bytes (v / 128) v hdiv
    · rw [heq, List.getLast?_concat]
      intro b hb
      have : b = v % 128 := by simpa using hb.symm
      omega
    · rw [heq, List.foldl_append, varLenLoop_foldl (v / 128) v 0 hdiv]
      simp only [List.foldl, zero_mul, zero_add]
      omega

/-- Witness for C9 at `v = 300`. -/
theorem writeVarLen_varlen_encoding_witness :
    (300 : Nat) < 2 ^ 28 ∧
    (writeVarLen ((300 : Nat) : Int)).foldl (fun acc b => acc * 128 + b % 128) 0 = 300 :=
  ⟨by norm_num, (writeVarLen_varlen_encoding 300 (by norm_num)).2.2.2⟩

/-- Lookup into `INDEX_TO_NOTE` at any index below 12 succeeds and agrees
with `noteAtIndex`. -/
theorem indexToNote_get : ∀ n, n < 12 → INDEX_TO_NOTE.get? n = some (noteAtIndex n) := by
  decide

/-- C5 counterexample: transposing C by −13 semitones hits the negative
JavaScript remainder, so the source indexes `INDEX_TO_NOTE[-1]` and returns
`undefined` (`none`) instead of the claimed canonical note B
(index `(0 − 13) mod 12 = 11`). -/
theorem transposeNote_negative_underflow :
    transposeNote NoteId.C (-13) = none ∧
    ((NOTE_TO_INDEX NoteId.C : Int) + (-13)).emod 12 = (NOTE_TO_INDEX NoteId.B : Int) := by
  decide

/-- C5 amended: for every note and every semitone count of at least −12,
`transposeNote` returns the canonical sharp-spelled note whose index is
`(index(note) + semitones) mod 12` with the result wrapped into [0, 12). -/
theorem transposeNote_mod12 (note : NoteId) (semitones : Int) (h : -12 ≤ semitones) :
    transposeNote note semitones =
      some (noteAtIndex (((NOTE_TO_INDEX note : Int) + semitones) % 12).toNat) := by
  have hidx : (0 : Int) ≤ (NOTE_TO_INDEX note : Int) := Int.natCast_nonneg _
  set a := (NOTE_TO_INDEX note : Int) + semitones with ha
  have hnn : 0 ≤ a + 12 := by omega
  have htmod : (a + 12).tmod 12 = (a + 12) % 12 := Int.tmod_eq_emod hnn (by norm_num)
  have h12 : (a + 12) % 12 = a % 12 := by omega
  have hr0 : 0 ≤ a % 12 := Int.emod_nonneg a (by norm_num)
  have hr1 : a % 12 < 12 := Int.emod_lt_of_pos a (by norm_num)
  show jsIndex INDEX_TO_NOTE ((a + 12).tmod 12) = _
  rw [htmod, h12]
  unfold jsIndex
  rw [if_neg (by omega)]
  exact indexToNote_get (a % 12).toNat (by omega)

/-- Witness for C5 (amended) at note A, semitones −5: the result is E. -/
theorem transposeNote_mod12_witness : transposeNote NoteId.A (-5) = some NoteId.E := by
  rw [transposeNote_mod12 NoteId.A (-5) (by norm_num)]
  decide

/-- C7: the list returned by `generateTriadPositions` is sorted ascending by
minimum fret, with ties broken by descending string index of the first string
of the position's string subset. -/
theorem generateTriadPositions_sorted (root : NoteId) (quality : ChordQuality) :
    (generateTriadPositions root quality).Pairwise
      (fun a b => a.minFret < b.minFret ∨
        (a.minFret = b.minFret ∧ b.stringSet.1.toNat ≤ a.stringSet.1.toNat)) := by
  unfold generateTriadPositions
  split
  · refine (pairwise_stableSort triadPosLE ?_ ?_ _).imp ?_
    · intro a b
      simp only [triadPosLE, decide_eq_true_eq]
      omega
    · intro a b c hab hbc
      simp only [triadPosLE, decide_eq_true_eq] at *
      omega
    · intro a b h
      simpa only [triadPosLE, decide_eq_true_eq] using h
  · exact List.Pairwise.nil

/-- Provenance of an element of `allTriadPositions`: it comes from one string
combination and one fret choice per string, and its fields are computed from
those frets. -/
theorem mem_allTriadPositions
    {ti : IntervalSymbol × IntervalSymbol × IntervalSymbol}
    {tn : NoteId × NoteId × NoteId} {pos : TriadPosition}
    (h : pos ∈ allTriadPositions ti tn) :
    ∃ stringSet ∈ generateStringCombinations,
      ∃ f1 ∈ findAllFretsForNote stringSet.1 tn.1 15,
        ∃ f2 ∈ findAllFretsForNote stringSet.2.1 tn.2.1 15,
          ∃ f3 ∈ findAllFretsForNote stringSet.2.2 tn.2.2 15,
            pos.notes = [⟨stringSet.1, f1, ti.1, tn.1⟩, ⟨stringSet.2.1, f2, ti.2.1, tn.2.1⟩,
                ⟨stringSet.2.2, f3, ti.2.2, tn.2.2⟩] ∧
              pos.minFret = min f1 (min f2 f3) ∧
              pos.maxFret = max f1 (max f2 f3) ∧
              pos.span = pos.maxFret - pos.minFret ∧
              pos.stringSet = stringSet := by
  simp only [allTriadPositions, List.mem_flatMap, List.mem_map] at h
  obtain ⟨ss, hss, note1, ⟨f1, hf1, rfl⟩, note2, ⟨f2, hf2, rfl⟩, note3, ⟨f3, hf3, rfl⟩, rfl⟩ := h
  exact ⟨ss, hss, f1, hf1, f2, hf2, f3, hf3, rfl, rfl, rfl, rfl, rfl⟩

/-- C2: every position returned by `generateTriadPositions` has all frets at
most 15 and a fret spread (`maxFret − minFret`, where those fields are the
max/min of its three frets) of at most 5. -/
theorem generateTriadPositions_playable (root : NoteId) (quality : ChordQuality)
    (pos : TriadPosition) (hmem : pos ∈ generateTriadPositions root quality) :
    (∀ note ∈ pos.notes, note.fret ≤ 15) ∧ pos.maxFret - pos.minFret ≤ 5 ∧
      ∃ f1 f2 f3, pos.notes.map TriadNote.fret = [f1, f2, f3] ∧
        pos.minFret = min f1 (min f2 f3) ∧ pos.maxFret = max f1 (max f2 f3) := by
  unfold generateTriadPositions at hmem
  split at hmem
  case h_1 i1 i2 i3 heq =>
    rw [mem_stableSort] at hmem
    unfold filterPlayablePositions at hmem
    rw [List.mem_filter, decide_eq_true_eq] at hmem
    obtain ⟨hmem, hfret, hspan⟩ := hmem
    obtain ⟨ss, hss, f1, hf1, f2, hf2, f3, hf3, hnotes, hmin, hmax, hsp, hset⟩ :=
      mem_allTriadPositions hmem
    refine ⟨?_, ?_, f1, f2, f3, by rw [hnotes]; rfl, hmin, hmax⟩
    · intro note hnote
      by_contra hgt
      exact hfret (List.any_eq_true.2 ⟨note, hnote, by simpa using hgt⟩)
    · simp only [not_lt] at hspan
      omega
  case h_2 => simp at hmem

/-- The value of `wrapFretAux` is congruent to its argument mod 12. -/
theorem wrapFretAux_mod (fuel : Nat) : ∀ f : Int, wrapFretAux fuel f % 12 = f % 12 := by
  induction fuel with
  | zero => intro f; rfl
  | succ fuel ih =>
    intro f
    unfold wrapFretAux
    split
    · rw [ih (f + 12)]
      omega
    · rfl

/-- Every fret collected by `fretsUpToAux` is its start plus a multiple
of 12. -/
theorem fretsUpToAux_mem (fuel : Nat) :
    ∀ (start maxFret f : Int), f ∈ fretsUpToAux fuel start maxFret →
      ∃ k : Nat, f = start + 12 * k := by
  induction fuel with
  | zero => intro start maxFret f h; simp [fretsUpToAux] at h
  | succ fuel ih =>
    intro start maxFret f h
    unfold fretsUpToAux at h
    split at h
    · rcases List.mem_cons.1 h with rfl | h
      · exact ⟨0, by omega⟩
      · obtain ⟨k, hk⟩ := ih (start + 12) maxFret f h
        exact ⟨k + 1, by push_cast [hk]; ring⟩
    · simp at h

/-- The pitch-class indices of `NOTE_TO_INDEX` are below 12. -/
theorem note_index_lt (t : NoteId) : NOTE_TO_INDEX t < 12 := by
  cases t <;> simp [NOTE_TO_INDEX]

/-- Every fret produced by `findAllFretsForNote` sounds the requested pitch
class: open-string index plus fret is the target's index mod 12. -/
theorem pitch_of_mem_findAllFretsForNote {s : GuitarString} {t : NoteId} {maxFret f : Int}
    (h : f ∈ findAllFretsForNote s t maxFret) :
    (((STRING_TUNINGS s).index : Int) + f) % 12 = (NOTE_TO_INDEX t : Int) := by
  unfold findAllFretsForNote fretsUpTo at h
  obtain ⟨k, rfl⟩ := fretsUpToAux_mem _ _ _ _ h
  have hw : wrapFret ((NOTE_TO_INDEX t : Int) - (STRING_TUNINGS s).index) % 12 =
      ((NOTE_TO_INDEX t : Int) - (STRING_TUNINGS s).index) % 12 := wrapFretAux_mod _ _
  have ht : (NOTE_TO_INDEX t : Int) < 12 := by exact_mod_cast note_index_lt t
  have ht0 : (0 : Int) ≤ (NOTE_TO_INDEX t : Int) := Int.natCast_nonneg _
  omega

/-- C10: every position returned by `generateTriadPositions` (for a quality
with at least three intervals) realizes its labelled pitch classes: its three
notes carry, in order, the quality's first three intervals applied to the
root, and each note's string/fret sounds that note's pitch class. -/
theorem generateTriadPositions_realizes (root : NoteId) (quality : ChordQuality)
    (h3 : 3 ≤ (QUALITY_MAP quality).intervals.length)
    (pos : TriadPosition) (hmem : pos ∈ generateTriadPositions root quality) :
    ∃ i1 i2 i3, (QUALITY_MAP quality).intervals.take 3 = [i1, i2, i3] ∧
      ∃ n1 n2 n3, pos.notes = [n1, n2, n3] ∧
        (n1.interval = i1 ∧ n1.note = calculateNoteFromInterval root i1 ∧
          (((STRING_TUNINGS n1.string).index : Int) + n1.fret) % 12 =
            (NOTE_TO_INDEX n1.note : Int)) ∧
        (n2.interval = i2 ∧ n2.note = calculateNoteFromInterval root i2 ∧
          (((STRING_TUNINGS n2.string).index : Int) + n2.fret) % 12 =
            (NOTE_TO_INDEX n2.note : Int)) ∧
        (n3.interval = i3 ∧ n3.note = calculateNoteFromInterval root i3 ∧
          (((STRING_TUNINGS n3.string).index : Int) + n3.fret) % 12 =
            (NOTE_TO_INDEX n3.note : Int)) := by
  unfold generateTriadPositions at hmem
  split at hmem
  case h_1 i1 i2 i3 heq =>
    rw [mem_stableSort] at hmem
    unfold filterPlayablePositions at hmem
    rw [List.mem_filter] at hmem
    obtain ⟨ss, hss, f1, hf1, f2, hf2, f3, hf3, hnotes, -, -, -, -⟩ :=
      mem_allTriadPositions hmem.1
    refine ⟨i1, i2, i3, heq, _, _, _, hnotes, ⟨rfl, rfl, ?_⟩, ⟨rfl, rfl, ?_⟩, ⟨rfl, rfl, ?_⟩⟩
    · exact pitch_of_mem_findAllFretsForNote hf1
    · exact pitch_of_mem_findAllFretsForNote hf2
    · exact pitch_of_mem_findAllFretsForNote hf3
  case h_2 hne =>
    exfalso
    have hlen : ((QUALITY_MAP quality).intervals.take 3).length = 3 := by
      rw [List.length_take]
      omega
    match hl : (QUALITY_MAP quality).intervals.take 3, hlen with
    | [a, b, c], _ => exact hne a b c hl

/-- Witness for C2 at root C, quality major, on the first returned
position. -/
theorem generateTriadPositions_playable_witness :
    triadSample.maxFret - triadSample.minFret ≤ 5 :=
  (generateTriadPositions_playable .C .major triadSample
    (List.mem_of_mem_head? (by decide))).2.1

/-- Witness for C10 at root C, quality major, on the first returned position:
its first note is the root C on string 5, fret 3, and `9 + 3 = 12 ≡ 0` is C's
pitch index. -/
theorem generateTriadPositions_realizes_witness :
    (((STRING_TUNINGS GuitarString.s5).index : Int) + 3) % 12 =
      (NOTE_TO_INDEX NoteId.C : Int) := by
  obtain ⟨i1, i2, i3, -, n1, n2, n3, hnotes, h1, -, -⟩ :=
    generateTriadPositions_realizes .C .major (by decide) triadSample
      (List.mem_of_mem_head? (by decide))
  have hn1 : n1 = ⟨.s5, 3, .R, .C⟩ := by
    have : triadSample.notes = [n1, n2, n3] := hnotes
    simp [triadSample] at this
    exact this.1.symm
  rw [show (GuitarString.s5 : GuitarString) = n1.string from by rw [hn1],
    show (3 : Int) = n1.fret from by rw [hn1],
    show NoteId.C = n1.note from by rw [hn1]]
  exact h1.2.2

/-- Reading back a `writeInt32` sequence big-endian recovers any value below
2^32. -/
theorem decodeBE_writeInt32 (n : Nat) (h : n < 2 ^ 32) : decodeBE (writeInt32 n) = n := by
  simp only [decodeBE, writeInt32, List.foldl]
  omega

/-- C1: `exportRiffToMidi` output is `4D 54 68 64`, 32-bit big-endian length
6, format 0, track count 1, division 480 (`01 E0`), followed by exactly one
track chunk `4D 54 72 6B` + declared length + data; the declared length
decodes to the data's exact byte count, and the data terminates in the
end-of-track event `FF 2F 00`. -/
theorem exportRiffToMidi_structure (riff : ProgressionRiff)
    (h : (trackDataOf (riffTrackEvents riff)).length < 2 ^ 32) :
    exportRiffToMidi riff =
      [0x4d, 0x54, 0x68, 0x64, 0, 0, 0, 6, 0, 0, 0, 1, 0x01, 0xE0] ++
        ([0x4d, 0x54, 0x72, 0x6b] ++ writeInt32 (trackDataOf (riffTrackEvents riff)).length ++
          trackDataOf (riffTrackEvents riff)) ∧
    decodeBE (writeInt32 (trackDataOf (riffTrackEvents riff)).length) =
      (trackDataOf (riffTrackEvents riff)).length ∧
    [0xff, 0x2f, 0x00] <:+ trackDataOf (riffTrackEvents riff) := by
  refine ⟨rfl, decodeBE_writeInt32 _ h, ?_⟩
  refine ⟨(riffTrackEvents riff).flatten ++ writeVarLen 0, ?_⟩
  simp [trackDataOf]

/-- Witness for C1 on the empty riff (a structurally valid, silent file). -/
theorem exportRiffToMidi_structure_witness :
    (trackDataOf (riffTrackEvents emptyRiff)).length < 2 ^ 32 ∧
    decodeBE (writeInt32 (trackDataOf (riffTrackEvents emptyRiff)).length) =
      (trackDataOf (riffTrackEvents emptyRiff)).length := by
  have hlen : (trackDataOf (riffTrackEvents emptyRiff)).length < 2 ^ 32 := by decide
  exact ⟨hlen, (exportRiffToMidi_structure emptyRiff hlen).2.1⟩

/-- The event comparator is total. -/
theorem noteEventLE_total (a b : NoteEvent) :
    noteEventLE a b = true ∨ noteEventLE b a = true := by
  simp only [noteEventLE, decide_eq_true_eq]
  rcases lt_trichotomy a.time b.time with h | h | h
  · exact Or.inl (Or.inl h)
  · cases hb : b.type
    · exact Or.inl (Or.inr ⟨h, Or.inr rfl⟩)
    · exact Or.inr (Or.inr ⟨h.symm, Or.inl rfl⟩)
  · exact Or.inr (Or.inl h)

/-- The event comparator is transitive. -/
theorem noteEventLE_trans (a b c : NoteEvent) (hab : noteEventLE a b = true)
    (hbc : noteEventLE b c = true) : noteEventLE a c = true := by
  simp only [noteEventLE, decide_eq_true_eq] at *
  rcases hab with h1 | ⟨h1, h1'⟩ <;> rcases hbc with h2 | ⟨h2, h2'⟩
  · exact Or.inl (by omega)
  · exact Or.inl (by omega)
  · exact Or.inl (by omega)
  · refine Or.inr ⟨by omega, ?_⟩
    rcases h1' with ha | hb
    · exact Or.inl ha
    · rcases h2' with hb' | hc
      · rw [hb] at hb'
        exact absurd hb' (by decide)
      · exact Or.inr hc

/-- `Math.round` of a non-negative rational is non-negative. -/
theorem jsRound_nonneg {q : ℚ} (h : 0 ≤ q) : 0 ≤ jsRound q := by
  unfold jsRound
  exact Int.floor_nonneg.2 (by linarith)

/-- Every absolute event time collected from a well-formed riff is
non-negative. -/
theorem collectNoteEvents_time_nonneg :
    ∀ (crs : List ChordRiff) (start : Int), 0 ≤ start →
      (∀ cr ∈ crs, ∀ note ∈ cr.notes, 0 ≤ note.startBeat ∧ 0 ≤ note.duration) →
      ∀ e ∈ collectNoteEvents start crs, 0 ≤ e.time := by
  intro crs
  induction crs with
  | nil => intro start _ _ e he; simp [collectNoteEvents] at he
  | cons cr rest ih =>
    intro start hstart hwf e he
    rw [collectNoteEvents] at he
    rcases List.mem_append.1 he with he | he
    · obtain ⟨note, hnote, he⟩ := List.mem_flatMap.1 he
      obtain ⟨hsb, hdur⟩ := hwf cr (by simp) note hnote
      have h1 : 0 ≤ jsRound (note.startBeat * (TICKS_PER_BEAT : ℚ)) :=
        jsRound_nonneg (mul_nonneg hsb (by norm_num [TICKS_PER_BEAT]))
      have h2 : 0 ≤ jsRound (note.duration * (TICKS_PER_BEAT : ℚ)) :=
        jsRound_nonneg (mul_nonneg hdur (by norm_num [TICKS_PER_BEAT]))
      unfold noteEventsOfNote at he
      rcases List.mem_cons.1 he with rfl | he
      · simp only []
        omega
      · rcases List.mem_cons.1 he with rfl | he
        · simp only []
          omega
        · simp at he
    · exact ih (start + 4 * TICKS_PER_BEAT) (by positivity) (fun cr' h' n hn =>
        hwf cr' (List.mem_cons_of_mem cr h') n hn) e he

/-- The deltas of a time-sorted event list whose times dominate the running
start are non-negative. -/
theorem deltaTimes_nonneg :
    ∀ (l : List NoteEvent) (lastTime : Int), (∀ e ∈ l, lastTime ≤ e.time) →
      l.Pairwise (fun a b => a.time ≤ b.time) → ∀ d ∈ deltaTimes lastTime l, 0 ≤ d := by
  intro l
  induction l with
  | nil => intro lastTime _ _ d hd; simp [deltaTimes] at hd
  | cons e rest ih =>
    intro lastTime hle hpw d hd
    rw [deltaTimes] at hd
    rcases List.mem_cons.1 hd with rfl | hd
    · have := hle e (by simp)
      omega
    · rcases hpw with - | ⟨he, hrest⟩
      exact ih e.time he hrest d hd

/-- C3: for every well-formed riff, the sorted event stream of
`exportRiffToMidi` is in non-decreasing absolute-tick order with note-offs
before note-ons at equal ticks, and every encoded delta time is
non-negative. -/
theorem exportRiffToMidi_event_order (riff : ProgressionRiff) (h : RiffWellFormed riff) :
    (sortedNoteEvents riff).Pairwise
      (fun a b => a.time ≤ b.time ∧
        (a.time = b.time → a.type = .off ∨ b.type = .on)) ∧
    ∀ d ∈ deltaTimes 0 (sortedNoteEvents riff), 0 ≤ d := by
  have hsorted := pairwise_stableSort noteEventLE noteEventLE_total noteEventLE_trans
    (collectNoteEvents 0 riff.chordRiffs)
  constructor
  · refine List.Pairwise.imp ?_ hsorted
    intro a b hab
    simp only [noteEventLE, decide_eq_true_eq] at hab
    constructor
    · rcases hab with h' | ⟨h', -⟩
      · exact le_of_lt h'
      · exact le_of_eq h'
    · intro heq
      rcases hab with h' | ⟨-, h'⟩
      · omega
      · exact h'
  · refine deltaTimes_nonneg (sortedNoteEvents riff) 0 ?_ ?_
    · intro e he
      rw [sortedNoteEvents, mem_stableSort] at he
      exact collectNoteEvents_time_nonneg riff.chordRiffs 0 le_rfl h e he
    · refine List.Pairwise.imp ?_ hsorted
      intro a b hab
      simp only [noteEventLE, decide_eq_true_eq] at hab
      rcases hab with h' | ⟨h', -⟩
      · exact le_of_lt h'
      · exact le_of_eq h'

/-- Witness for C3 on the two-note sample riff: its encoded deltas are
`[0, 120, 240, 120]`, and 120 is indeed non-negative by the theorem. -/
theorem exportRiffToMidi_event_order_witness :
    RiffWellFormed sampleRiff ∧ (0 : Int) ≤ 120 := by
  have hwf : RiffWellFormed sampleRiff := by
    intro cr hcr note hnote
    simp only [sampleRiff, List.mem_singleton] at hcr
    subst hcr
    simp only [List.mem_cons, List.mem_singleton] at hnote
    rcases hnote with rfl | rfl | h
    · constructor <;> norm_num [sampleNoteA]
    · constructor <;> norm_num [sampleNoteB]
    · simp at h
  have hvel : velocityOfTechnique none = 100 := rfl
  have hcollect : collectNoteEvents 0 sampleRiff.chordRiffs =
      [⟨0, .on, 43, 100⟩, ⟨480, .off, 43, 0⟩, ⟨120, .on, 45, 100⟩, ⟨360, .off, 45, 0⟩] := by
    norm_num [collectNoteEvents, noteEventsOfNote, sampleRiff, sampleNoteA, sampleNoteB,
      fretToMidi, STRING_TUNINGS, hvel, jsRound, TICKS_PER_BEAT]
  have hsort : sortedNoteEvents sampleRiff =
      [⟨0, .on, 43, 100⟩, ⟨120, .on, 45, 100⟩, ⟨360, .off, 45, 0⟩, ⟨480, .off, 43, 0⟩] := by
    rw [sortedNoteEvents, hcollect]
    decide
  have hd : (120 : Int) ∈ deltaTimes 0 (sortedNoteEvents sampleRiff) := by
    rw [hsort]
    decide
  exact ⟨hwf, (exportRiffToMidi_event_order sampleRiff hwf).2 120 hd⟩

/-- Replacing only the note list of the measure at a valid index `i`
satisfies the frame property. -/
theorem riffSetFrame (riff : ProgressionRiff) (i : Nat) (h : i < riff.chordRiffs.length)
    (f : ChordRiff → List RiffNote) :
    RiffFrameAt riff
      { riff with chordRiffs := (riff.chordRiffs.set i
          { riff.chordRiffs.get ⟨i, h⟩ with notes := f (riff.chordRiffs.get ⟨i, h⟩) }) } i := by
  refine ⟨rfl, rfl, rfl, List.length_set .., ?_, ?_⟩
  · intro j hj
    exact List.get?_set_ne _ _ (Ne.symm hj)
  · refine ⟨riff.chordRiffs.get ⟨i, h⟩,
      { riff.chordRiffs.get ⟨i, h⟩ with notes := f (riff.chordRiffs.get ⟨i, h⟩) },
      List.get?_eq_get h, ?_, rfl, rfl, rfl, rfl⟩
    rw [List.get?_set_eq, List.get?_eq_get h]
    rfl

/-- C8: on a valid measure index, `updateRiffNote`, `addRiffNote` and
`removeRiffNote` each return (without error) a new riff that agrees with the
input everywhere outside the targeted measure's note list: every other
measure is the same value, the targeted measure keeps its chord identity, and
the riff's id, bpm and style are unchanged.  (In this value-semantics
embedding the input riff itself is, by construction, never mutated.) -/
theorem riff_edit_operations_frame (riff : ProgressionRiff) (i : Nat)
    (h : i < riff.chordRiffs.length) (noteId : String) (newString : GuitarString)
    (newFret : Int) (newNote : Option NoteId) (stringId : GuitarString) (fret : Int)
    (startBeat : ℚ) (note : Option NoteId) (now : Nat) :
    (∃ r', updateRiffNote riff i noteId newString newFret newNote = some r' ∧
      RiffFrameAt riff r' i) ∧
    (∃ r', addRiffNote riff i stringId fret startBeat note now = some r' ∧
      RiffFrameAt riff r' i) ∧
    (∃ r', removeRiffNote riff i noteId = some r' ∧ RiffFrameAt riff r' i) := by
  have hget : riff.chordRiffs.get? i = some (riff.chordRiffs.get ⟨i, h⟩) := List.get?_eq_get h
  refine ⟨⟨_, ?_, riffSetFrame riff i h (fun cr => cr.notes.map (fun n =>
      if n.nid = noteId then { n with string := newString, fret := newFret, note := newNote }
      else n))⟩,
    ⟨_, ?_, riffSetFrame riff i h (fun cr => stableSort (fun a b => a.startBeat ≤ b.startBeat)
      (cr.notes ++ [⟨cr.chordDegree ++ "-" ++ toString now, stringId, fret, 1/2, startBeat,
        note, none, none, none⟩]))⟩,
    ⟨_, ?_, riffSetFrame riff i h (fun cr => cr.notes.filter (fun n => n.nid ≠ noteId))⟩⟩
  · unfold updateRiffNote
    rw [hget]
  · unfold addRiffNote
    rw [hget]
  · unfold removeRiffNote
    rw [hget]

/-- Witness for C8 on the sample riff at measure 0: all three operations
succeed. -/
theorem riff_edit_operations_frame_witness :
    (updateRiffNote sampleRiff 0 "I-0" GuitarString.s5 7 (some NoteId.A)).isSome = true ∧
    (addRiffNote sampleRiff 0 GuitarString.s4 2 1 (some NoteId.E) 42).isSome = true ∧
    (removeRiffNote sampleRiff 0 "I-0").isSome = true := by
  obtain ⟨⟨r1, h1, -⟩, ⟨r2, h2, -⟩, ⟨r3, h3, -⟩⟩ :=
    riff_edit_operations_frame sampleRiff 0 (by simp [sampleRiff]) "I-0" GuitarString.s5 7
      (some NoteId.A) GuitarString.s4 2 1 (some NoteId.E) 42
  rw [h1, h2, h3]
  exact ⟨rfl, rfl, rfl⟩

/-- The tab grid's per-string row length is preserved by note placement. -/
theorem placeTab_foldl_length (subs : Nat) (tb : ℚ) :
    ∀ (notes : List RiffNote)
      (grids : (GuitarString → List (Option Int)) × (GuitarString → List TabPosition))
      (s : GuitarString), (∀ s', (grids.1 s').length = subs) →
      ((notes.foldl (placeTabNote subs tb) grids).1 s).length = subs := by
  intro notes
  induction notes with
  | nil => intro grids s h; exact h s
  | cons n t ih =>
    intro grids s h
    rw [List.foldl_cons]
    refine ih _ s ?_
    intro s'
    simp only [placeTabNote]
    split
    · dsimp only
      by_cases hs : s' = n.string
      · simp [hs, List.length_set, h]
      · simp [hs, h s']
    · exact h s'

/-- A cell no note of the list writes into is untouched by the placement
fold. -/
theorem placeTab_foldl_untouched (subs : Nat) (tb : ℚ) :
    ∀ (notes : List RiffNote)
      (grids : (GuitarString → List (Option Int)) × (GuitarString → List TabPosition))
      (s : GuitarString) (k : Int), 0 ≤ k →
      (∀ n ∈ notes, ¬(n.string = s ∧ subdivisionIndexOf subs tb n.startBeat = k)) →
      ((notes.foldl (placeTabNote subs tb) grids).1 s).get? k.toNat =
        (grids.1 s).get? k.toNat := by
  intro notes
  induction notes with
  | nil => intro grids s k _ _; rfl
  | cons n t ih =>
    intro grids s k hk hno
    rw [List.foldl_cons, ih _ s k hk (fun n' h' => hno n' (List.mem_cons_of_mem n h'))]
    simp only [placeTabNote]
    split
    case isTrue hin =>
      dsimp only
      by_cases hs : s = n.string
      · have hne : subdivisionIndexOf subs tb n.startBeat ≠ k :=
          fun heq => hno n (by simp) ⟨hs.symm, heq⟩
        rw [hs]
        simp only [if_pos rfl]
        exact List.get?_set_ne _ _ (by omega)
      · simp [hs]
    · rfl

/-- C4 counterexample: in `sampleRiff`, the first note (fret 3) starts
exactly on subdivision boundary 0 of 8, but a later note on the same string
(start beat 1/4, fret 5) quantizes into the same cell and overwrites it, so
reading the cell back yields 5, not the original fret 3. -/
theorem tab_roundtrip_counterexample :
    sampleRiff.chordRiffs.map ChordRiff.notes = [[sampleNoteA, sampleNoteB]] ∧
    sampleNoteA.startBeat * ((8 : ℚ) / 4) = ((0 : Int) : ℚ) ∧
    sampleNoteA.fret = 3 ∧
    getNoteAtPosition (riffToTabSheet sampleRiff 8) 0 0 sampleNoteA.string = some 5 := by
  refine ⟨rfl, by norm_num [sampleNoteA], rfl, ?_⟩
  norm_num [getNoteAtPosition, riffToTabSheet, formatTabMeasure, placeTabNote,
    subdivisionIndexOf, jsFloor, sampleRiff, sampleNoteA, sampleNoteB]

/-- C4 amended: converting a riff with `riffToTabSheet` (8 subdivisions) and
reading back a note's cell returns that note's fret, for every note whose
start beat lands exactly on a subdivision boundary, provided the quantized
index is in range [0, 8) and no later note of the same measure on the same
string quantizes to the same subdivision. -/
theorem tab_roundtrip (riff : ProgressionRiff) (mIdx : Nat) (cr : ChordRiff)
    (hcr : riff.chordRiffs.get? mIdx = some cr)
    (note : RiffNote) (l₁ l₂ : List RiffNote) (hsplit : cr.notes = l₁ ++ note :: l₂)
    (k : Int) (hq : note.startBeat * ((8 : ℚ) / cr.totalBeats) = (k : ℚ))
    (hk0 : 0 ≤ k) (hk8 : k < 8)
    (hnolater : ∀ n' ∈ l₂, ¬(n'.string = note.string ∧
      subdivisionIndexOf 8 cr.totalBeats n'.startBeat = k)) :
    getNoteAtPosition (riffToTabSheet riff 8) mIdx k.toNat note.string = some note.fret := by
  have hidx : subdivisionIndexOf 8 cr.totalBeats note.startBeat = k := by
    unfold subdivisionIndexOf jsFloor
    push_cast
    rw [hq, Int.floor_intCast]
  have hm : (riffToTabSheet riff 8).measures.get? mIdx = some (formatTabMeasure cr 8) := by
    unfold riffToTabSheet
    rw [List.get?_map, hcr]
    rfl
  unfold getNoteAtPosition
  rw [hm]
  unfold formatTabMeasure
  dsimp only
  rw [hsplit, List.foldl_append, List.foldl_cons]
  rw [placeTab_foldl_untouched 8 cr.totalBeats l₂ _ note.string k hk0 hnolater]
  have hlen : ∀ s', ((l₁.foldl (placeTabNote 8 cr.totalBeats)
      (fun _ => List.replicate 8 none, fun _ => List.replicate 8 ⟨none, none, none⟩)).1 s').length
      = 8 := by
    intro s'
    exact placeTab_foldl_length 8 cr.totalBeats l₁ _ s' (fun _ => List.length_replicate 8 none)
  simp only [placeTabNote]
  rw [hidx, if_pos ⟨hk0, by exact_mod_cast hk8⟩]
  dsimp only
  rw [if_pos rfl, List.get?_set_eq]
  have : k.toNat < 8 := by omega
  rw [List.get?_eq_get (by rw [hlen note.string]; omega)]
  rfl

/-- Witness for C4 (amended) on `boundaryRiff`: its single note (string 3,
fret 7) starts on beat 3/2, exactly subdivision 3 of 8, and reads back as
fret 7. -/
theorem tab_roundtrip_witness :
    getNoteAtPosition (riffToTabSheet boundaryRiff 8) 0 (Int.toNat 3) boundaryNote.string =
      some boundaryNote.fret := by
  refine tab_roundtrip boundaryRiff 0 (boundaryRiff.chordRiffs.headD
    { chordRoot := .C, chordQuality := .major, chordDegree := "", notes := [], totalBeats := 4 })
    rfl boundaryNote [] [] rfl 3 ?_ (by norm_num) (by norm_num) (by simp)
  norm_num [boundaryNote, boundaryRiff]

/-- With the complex style's fret range [0, 15], whenever the technique
adjustment emits `harmonic` it also overwrites the fret with 5, the first
element of `HARMONIC_FRETS` inside the range. -/
theorem applyComplexTechnique_harmonic (prev : Option RiffNote) (pos : NotePos)
    (st : Technique) (sp bp : ℚ)
    (h : (applyComplexTechnique 0 15 prev pos st sp bp).2.1 = some .harmonic) :
    (applyComplexTechnique 0 15 prev pos st sp bp).1 = 5 := by
  by_cases hst : st = Technique.harmonic
  · subst hst
    rfl
  · exfalso
    simp only [applyComplexTechnique, hst, if_false] at h
    split at h <;> (try split at h) <;> simp_all

/-- Any note `onsetNote` emits in a context with fret range [0, 15] that
carries the `harmonic` technique has fret 5. -/
theorem onsetNote_harmonic_fret (ctx : RiffGenContext) (h0 : ctx.fretMin = 0)
    (h15 : ctx.fretMax = 15) (n : Nat) (beat : ℚ) (nxt : Option ℚ) (prev : Option RiffNote)
    (note : RiffNote) (h : onsetNote ctx n beat nxt prev = some note)
    (htech : note.technique = some .harmonic) : note.fret = 5 := by
  unfold onsetNote at h
  rcases hct : chooseTargetNote ctx n beat with ⟨tn, iv⟩
  rw [hct] at h
  dsimp only at h
  split at h
  · exact absurd h (by simp)
  case h_2 position hfp =>
    injection h with h
    subst h
    simp only at htech ⊢
    by_cases hc : ctx.useComplexTechniques
    · rw [if_pos hc, h0, h15] at htech ⊢
      exact applyComplexTechnique_harmonic _ _ _ _ _ htech
    · rw [if_neg hc] at htech
      exact absurd htech (by simp)

/-- The `pattern.forEach` loop only ever appends harmonic notes with
fret 5 (fret range [0, 15]). -/
theorem genNotesLoop_harmonic (ctx : RiffGenContext) (h0 : ctx.fretMin = 0)
    (h15 : ctx.fretMax = 15) :
    ∀ (pat : List ℚ) (n : Nat) (acc : List RiffNote),
      (∀ m ∈ acc, m.technique = some .harmonic → m.fret = 5) →
      ∀ m ∈ genNotesLoop ctx n pat acc, m.technique = some .harmonic → m.fret = 5 := by
  intro pat
  induction pat with
  | nil => intro n acc hacc m hm; exact hacc m hm
  | cons beat rest ih =>
    intro n acc hacc m hm
    rw [genNotesLoop] at hm
    split at hm
    · exact ih (n + 1) acc hacc m hm
    · split at hm
      case h_1 => exact ih (n + 1) acc hacc m hm
      case h_2 note honset =>
        refine ih (n + 1) (acc ++ [note]) ?_ m hm
        intro m' hm'
        rcases List.mem_append.1 hm' with hm' | hm'
        · exact hacc m' hm'
        · rw [List.mem_singleton.1 hm']
          exact onsetNote_harmonic_fret ctx h0 h15 n beat rest.head? acc.getLast? note honset

/-- C6 amended: in complex-style generation, for every random outcome
(`RiffOracle`), every emitted note carrying the `harmonic` technique has its
fret overwritten with 5 — the first fret of `HARMONIC_FRETS = [5, 7, 12]`
that lies inside the complex style's fret range [0, 15] — regardless of the
fret position originally chosen for the note. -/
theorem generateChordRiff_harmonic_first_in_range (chordRoot : NoteId)
    (chordQuality : ChordQuality) (chordDegree : String) (nextChordRoot : Option NoteId)
    (beatsPerChord : ℚ) (oracle : RiffOracle) (cr : ChordRiff)
    (hgen : generateChordRiff chordRoot chordQuality chordDegree nextChordRoot .complex
      beatsPerChord oracle = some cr) :
    HARMONIC_FRETS.find? (fun f => decide ((0 : Int) ≤ f ∧ f ≤ 15)) = some 5 ∧
    ∀ note ∈ cr.notes, note.technique = some .harmonic → note.fret = 5 := by
  refine ⟨rfl, ?_⟩
  unfold generateChordRiff at hgen
  dsimp only at hgen
  split at hgen
  · exact absurd hgen (by simp)
  case h_2 pattern hpat =>
    injection hgen with hgen
    subst hgen
    intro note hnote htech
    exact genNotesLoop_harmonic _ rfl rfl pattern 0 [] (by simp) note hnote htech

/-- The chord tones of C major. -/
theorem harmonicChordTones : getChordTones .C .major = [.C, .E, .G] := by decide

/-- Under `harmonicOracle`, onset 0 targets the chord tone E (interval 3). -/
theorem harmonicChoose0 : chooseTargetNote harmonicCtx 0 0 = (some NoteId.E, some .n3) := by
  norm_num [chooseTargetNote, harmonicCtx, harmonicOracle, harmonicChordTones, jsIndex,
    jsFloor, QUALITY_MAP]

/-- All positions sounding E on the six strings within frets 0–15, in
search order. -/
theorem harmonicPositions :
    findAllNotePositions (some NoteId.E) [.s1, .s2, .s3, .s4, .s5, .s6] 0 15 =
      [⟨.s1, 0⟩, ⟨.s1, 12⟩, ⟨.s2, 5⟩, ⟨.s3, 9⟩, ⟨.s4, 2⟩, ⟨.s4, 14⟩, ⟨.s5, 7⟩,
        ⟨.s6, 0⟩, ⟨.s6, 12⟩] := by
  decide

/-- Under `harmonicOracle`, onset 0 (no previous note) picks position
index ⌊(1/6)·9⌋ = 1: string 1, fret 12. -/
theorem harmonicFind0 :
    findNotePosition (some NoteId.E) [.s1, .s2, .s3, .s4, .s5, .s6] 0 15 none
      (harmonicOracle.sortStep 0) (harmonicOracle.posPick 0) = some ⟨.s1, 12⟩ := by
  norm_num [findNotePosition, harmonicPositions, harmonicOracle, jsIndex, jsFloor]

/-- Under `harmonicOracle`, onset 0 draws the `harmonic` technique
(roll 0.92: the cumulative weights pass 90 at `bend` and reach 95 at
`harmonic`). -/
theorem harmonicSelect0 :
    selectTechnique none (harmonicOracle.techRoll1 0) (harmonicOracle.techRoll2 0) =
      .harmonic := by
  norm_num [selectTechnique, techniqueFromWeights, TECHNIQUE_WEIGHTS, harmonicOracle]

/-- Under `harmonicOracle`, onset 0 emits `harmonicNote`: the chosen fret 12
is replaced by harmonic fret 5. -/
theorem harmonicOnset0 :
    onsetNote harmonicCtx 0 0 (some (1/4)) none = some harmonicNote := by
  have hpref : harmonicCtx.preferredStrings = [.s1, .s2, .s3, .s4, .s5, .s6] := rfl
  have hmin : harmonicCtx.fretMin = 0 := rfl
  have hmax : harmonicCtx.fretMax = 15 := rfl
  have huse : harmonicCtx.useComplexTechniques = true := rfl
  have horacle : harmonicCtx.oracle = harmonicOracle := rfl
  have hdeg : harmonicCtx.chordDegree = "I" := rfl
  have happly : ∀ sp bp, applyComplexTechnique 0 15 none ⟨.s1, 12⟩ .harmonic sp bp =
      (5, some .harmonic, none) := fun sp bp => rfl
  simp only [onsetNote, harmonicChoose0, hpref, hmin, hmax, huse, horacle, hdeg,
    Option.map_none', harmonicFind0, harmonicSelect0, happly, if_true]
  norm_num [harmonicNote, min_def]
  decide

/-- Under `harmonicOracle`, every onset after the first draws the
out-of-range chord-tone index ⌊2·3⌋ = 6, so its target note is `undefined`
and no note is emitted. -/
theorem harmonicSkip (n : Nat) (hn : n ≠ 0) (beat : ℚ) (nxt : Option ℚ)
    (prev : Option RiffNote) : onsetNote harmonicCtx n beat nxt prev = none := by
  have hchoose : chooseTargetNote harmonicCtx n beat = (none, none) := by
    norm_num [chooseTargetNote, harmonicCtx, harmonicOracle, harmonicChordTones, hn,
      jsIndex, jsFloor, QUALITY_MAP]
  have hfind : ∀ (ps : List GuitarString) (fmin fmax : Int) (prevP : Option NotePos)
      (ss : List NotePos → List NotePos) (rp : ℚ),
      findNotePosition none ps fmin fmax prevP ss rp = none := fun _ _ _ _ _ _ => rfl
  simp only [onsetNote, hchoose, hfind]

/-- Under `harmonicOracle`, pattern 0's ten onsets produce exactly
`[harmonicNote]`. -/
theorem harmonicLoop :
    genNotesLoop harmonicCtx 0 [0, 1/4, 1/2, 1, 3/2, 2, 9/4, 5/2, 3, 7/2] [] =
      [harmonicNote] := by
  have hbeats : harmonicCtx.beatsPerChord = 4 := rfl
  norm_num [genNotesLoop, hbeats, harmonicOnset0, harmonicSkip]

/-- The full run: `generateChordRiff` on C major, complex style, under
`harmonicOracle`, yields the single-note measure `harmonicChordRiff`. -/
theorem harmonicOracle_run :
    generateChordRiff .C .major "I" none .complex 4 harmonicOracle =
      some harmonicChordRiff := by
  have hpat : jsIndex COMPLEX_PATTERNS
      (jsFloor (harmonicOracle.patternPick * (COMPLEX_PATTERNS.length : ℚ))) =
      some [0, 1/4, 1/2, 1, 3/2, 2, 9/4, 5/2, 3, 7/2] := by
    norm_num [jsIndex, jsFloor, harmonicOracle, COMPLEX_PATTERNS]
  unfold generateChordRiff
  dsimp only
  rw [hpat]
  refine congrArg some ?_
  show ChordRiff.mk .C .major "I"
    (genNotesLoop harmonicCtx 0 [0, 1/4, 1/2, 1, 3/2, 2, 9/4, 5/2, 3, 7/2] []) 4 =
    harmonicChordRiff
  rw [harmonicLoop]
  rfl

/-- C6 counterexample: under `harmonicOracle` the position chosen for the
first onset is (string 1, fret 12), the drawn technique is `harmonic`, and
the emitted note has fret 5 — but the nearest natural-harmonic fret to the
originally chosen fret 12 is 12, not 5.  The code snaps to the first
in-range harmonic fret, not the nearest one. -/
theorem generateChordRiff_harmonic_counterexample :
    findNotePosition (some NoteId.E) [.s1, .s2, .s3, .s4, .s5, .s6] 0 15 none
      (harmonicOracle.sortStep 0) (harmonicOracle.posPick 0) = some ⟨.s1, 12⟩ ∧
    generateChordRiff .C .major "I" none .complex 4 harmonicOracle =
      some harmonicChordRiff ∧
    harmonicNote.technique = some .harmonic ∧
    harmonicNote.fret = 5 ∧
    specNearestHarmonicFret 12 = 12 ∧
    harmonicNote.fret ≠ specNearestHarmonicFret 12 :=
  ⟨harmonicFind0, harmonicOracle_run, rfl, rfl, by decide, by decide⟩

/-- Witness for C6 (amended): the harmonic note of the concrete run has
fret 5. -/
theorem generateChordRiff_harmonic_first_in_range_witness : harmonicNote.fret = 5 :=
  (generateChordRiff_harmonic_first_in_range .C .major "I" none 4 harmonicOracle
    harmonicChordRiff harmonicOracle_run).2 harmonicNote (by simp [harmonicChordRiff]) rfl
